import Mathlib

/-!
Verification of the sql-data-migration-poc batch-ingestion and
truncate-load pipeline.  The definitions below are a shallow embedding of
the Python source under `src/data_migration/`:

* `validators.py` — `DataQualityValidator.validate_hired_employee`,
  `validate_department`, `validate_job`;
* `services.py` — `DataMigrationService` (cleaning, chunked COPY loading,
  truncation, full migration, parquet restore);
* `management/commands/run_kafka_consumer.py` — the consumer flush;
* `management/commands/run_migration_truncate_load.py` — the step-by-step
  truncate-load command.

Library calls are embedded as follows: Django ORM existence queries
(`Department.objects.filter(id=..).exists()` etc.) become membership in an
explicit list of committed ids; `datetime.strptime` with the three formats
used by the validator becomes the concrete parser `strptimeAny`;
`int(...)` on strings becomes `pyIntOfString`; `str.strip` becomes
`pyStrip` over the Unicode whitespace set that Python's `str.strip` and the
regex class `\s` use; PostgreSQL enforces the foreign keys declared in
`models.py` (`HiredEmployee.department -> Department`,
`HiredEmployee.job -> Job`), which the COPY embeddings check per
transaction.  The pipeline is single-writer per table (one process), so
the department/job id sets are constant between a record's validation and
its commit within one load.
-/

namespace Migration

/-- Python / regex Unicode whitespace characters (the set used by
`str.strip()` and by the `\s` class in `re` for `str` patterns). -/
def pyIsSpace (c : Char) : Bool :=
  let n := c.toNat
  n == 0x20 || n == 0x9 || n == 0xa || n == 0xd || n == 0xb || n == 0xc ||
  (0x1c ≤ n && n ≤ 0x1f) || n == 0x85 || n == 0xa0 || n == 0x1680 ||
  (0x2000 ≤ n && n ≤ 0x200a) || n == 0x2028 || n == 0x2029 ||
  n == 0x202f || n == 0x205f || n == 0x3000

/-- Strip leading and trailing Python whitespace from a character list. -/
def stripChars (l : List Char) : List Char :=
  ((l.dropWhile pyIsSpace).reverse.dropWhile pyIsSpace).reverse

/-- Embedding of Python `str.strip()`. -/
def pyStrip (s : String) : String := ⟨stripChars s.data⟩

/-- Digit value of a character, if it is an ASCII digit. -/
def digitVal (c : Char) : Option Nat :=
  if c.isDigit then some (c.toNat - 48) else none

/-- Read exactly `n` ASCII digits from the front of a character list,
returning their value and the rest. -/
def takeDigits : Nat → List Char → Option (Nat × List Char)
  | 0, l => some (0, l)
  | n + 1, [] => (fun _ => none) n
  | n + 1, c :: rest => do
      let d ← digitVal c
      let (v, r) ← takeDigits n rest
      pure (d * 10 ^ n + v, r)

/-- Embedding of Python `int(str)`: optional surrounding whitespace, an
optional sign, then one or more ASCII digits. -/
def pyIntOfString (s : String) : Option Int :=
  let t := stripChars s.data
  let (neg, ds) : Bool × List Char :=
    match t with
    | '-' :: rest => (true, rest)
    | '+' :: rest => (false, rest)
    | rest => (false, rest)
  if ds.isEmpty ∨ ¬ ds.all Char.isDigit then none
  else
    let v : Nat := ds.foldl (fun acc c => acc * 10 + (c.toNat - 48)) 0
    some (if neg then -(v : Int) else (v : Int))

/-- Calendar timestamp as produced by `datetime.strptime` (naive, later
normalized to UTC by `timezone.make_aware`); microsecond precision. -/
structure Ts where
  year : Nat
  month : Nat
  day : Nat
  hour : Nat
  minute : Nat
  second : Nat
  micro : Nat
deriving DecidableEq, Repr

/-- Monotone key for comparing timestamps whose fields are in calendar
range (the parser only produces such values). -/
def Ts.key (t : Ts) : Nat :=
  (((((t.year * 13 + t.month) * 32 + t.day) * 24 + t.hour) * 60
      + t.minute) * 60 + t.second) * 1000000 + t.micro

/-- Embedding of Python datetime `<` comparison (both sides UTC). -/
def tsLt (a b : Ts) : Bool := a.key < b.key

/-- Leap-year rule used by Python's calendar validation. -/
def isLeap (y : Nat) : Bool :=
  y % 4 == 0 && (y % 100 != 0 || y % 400 == 0)

/-- Days in a month, as validated by the `datetime` constructor. -/
def daysInMonth (y m : Nat) : Nat :=
  if m == 2 then (if isLeap y then 29 else 28)
  else if m == 4 || m == 6 || m == 9 || m == 11 then 30
  else 31

/-- Expect a single character at the head of the list. -/
def expectChar (c : Char) : List Char → Option (List Char)
  | x :: rest => if x = c then some rest else none
  | [] => none

/-- Parse `YYYY-MM-DD<sep>HH:MM:SS` followed by `rest`; the date and time
components are range-checked the way `datetime.strptime` checks them,
including the `datetime` constructor's `MINYEAR = 1` lower bound (year
0000 raises `ValueError`). -/
def strptimeCore (sep : Char) (l : List Char) : Option (Ts × List Char) := do
  let (y, r) ← takeDigits 4 l
  let r ← expectChar '-' r
  let (mo, r) ← takeDigits 2 r
  let r ← expectChar '-' r
  let (d, r) ← takeDigits 2 r
  let r ← expectChar sep r
  let (h, r) ← takeDigits 2 r
  let r ← expectChar ':' r
  let (mi, r) ← takeDigits 2 r
  let r ← expectChar ':' r
  let (s, r) ← takeDigits 2 r
  if 1 ≤ y ∧ 1 ≤ mo ∧ mo ≤ 12 ∧ 1 ≤ d ∧ d ≤ daysInMonth y mo ∧
      h ≤ 23 ∧ mi ≤ 59 ∧ s ≤ 59 then
    pure (⟨y, mo, d, h, mi, s, 0⟩, r)
  else none

/-- Format `%Y-%m-%dT%H:%M:%S` (whole-string match). -/
def strptimeT (s : String) : Option Ts := do
  let (t, r) ← strptimeCore 'T' s.data
  if r.isEmpty then pure t else none

/-- Format `%Y-%m-%dT%H:%M:%S.%f` (1–6 fractional digits). -/
def strptimeTF (s : String) : Option Ts := do
  let (t, r) ← strptimeCore 'T' s.data
  match r with
  | '.' :: ds =>
      if 1 ≤ ds.length ∧ ds.length ≤ 6 ∧ ds.all Char.isDigit then
        let v : Nat := ds.foldl (fun acc c => acc * 10 + (c.toNat - 48)) 0
        pure { t with micro := v * 10 ^ (6 - ds.length) }
      else none
  | _ => none

/-- Format `%Y-%m-%d %H:%M:%S` (whole-string match). -/
def strptimeSpace (s : String) : Option Ts := do
  let (t, r) ← strptimeCore ' ' s.data
  if r.isEmpty then pure t else none

/-- The format loop of `validate_hired_employee`: try
`%Y-%m-%dT%H:%M:%S`, then `%Y-%m-%dT%H:%M:%S.%f`, then
`%Y-%m-%d %H:%M:%S`, taking the first that succeeds. -/
def strptimeAny (s : String) : Option Ts :=
  match strptimeT s with
  | some t => some t
  | none =>
    match strptimeTF s with
    | some t => some t
    | none => strptimeSpace s

/-- Scalar value of a record field.  Payloads arrive as JSON objects
(consumer path) or CSV cells, so the values relevant to the validators are
integers and strings; a Python `None` or an absent key is modelled by
`Option.none` at the field level. -/
inductive Val where
  | intv (n : Int)
  | strv (s : String)
deriving DecidableEq, Repr

/-- Embedding of Python `str(value)` for the modelled scalars. -/
def pyStrOfVal : Val → String
  | .intv n => toString n
  | .strv s => s

/-- Embedding of Python `int(value)` for the modelled scalars
(`ValueError`/`TypeError` becomes `none`). -/
def pyIntOfVal : Val → Option Int
  | .intv n => some n
  | .strv s => pyIntOfString s

/-- The presence test of the validators:
`field not in record or not record[field] or str(record[field]).strip() == ''`.
An integer is falsy exactly when it is `0`; a string fails the test exactly
when it strips to the empty string. -/
def valMissing : Option Val → Bool
  | none => true
  | some (.intv n) => n == 0
  | some (.strv s) => pyStrip s == ""

/-- A `hired_employees` record (the dict keys the validator reads). -/
structure EmpRecord where
  id : Option Val := none
  name : Option Val := none
  datetime : Option Val := none
  department_id : Option Val := none
  job_id : Option Val := none
deriving DecidableEq, Repr

/-- A `departments` / `jobs` record (the dict keys the validator reads). -/
structure IdNameRecord where
  id : Option Val := none
  name : Option Val := none
deriving DecidableEq, Repr

/-- Error messages appended by the validators, one constructor per
Spanish-language message in `validators.py`. -/
inductive ErrMsg where
  | missingRequired (field : String)
  | nameTooShort
  | nameTooLong
  | nameInvalidChars
  | badDateFormat
  | badDateType
  | futureDate
  | deptNotPositive
  | deptNotFound (n : Int)
  | deptNotInt
  | jobNotPositive
  | jobNotFound (n : Int)
  | jobNotInt
  | idOutOfRange
  | idAlreadyExists (n : Int)
  | idNotPositive
  | idNotInt
deriving DecidableEq, Repr

/-- The `error_type` component of the validator's result tuple. -/
inductive ErrKind where
  | missingRequiredFields
  | validationError
deriving DecidableEq, Repr

/-- Result of a validator: the tuple `(is_valid, error_message,
error_type)`, with the joined message kept as the list of messages. -/
inductive VResult where
  | ok
  | reject (msgs : List ErrMsg) (kind : ErrKind)
deriving DecidableEq, Repr

/-- Character class of the name pattern
`^[a-zA-ZáéíóúÁÉÍÓÚñÑ\s\-\.]+$` in `validators.py`. -/
def nameChar (c : Char) : Bool :=
  ('a' ≤ c && c ≤ 'z') || ('A' ≤ c && c ≤ 'Z') ||
  "áéíóúÁÉÍÓÚñÑ".data.contains c || pyIsSpace c || c == '-' || c == '.'

/-- Embedding of `re.match(r'^[a-zA-ZáéíóúÁÉÍÓÚñÑ\s\-\.]+$', name)`:
a non-empty string all of whose characters are in the class. -/
def nameMatches (s : String) : Bool :=
  !s.data.isEmpty && s.data.all nameChar

/-- The shared name checks (length 2, length 255, pattern), applied to the
already-stripped name.  `elif` chaining means at most one message. -/
def nameErrors (name : String) : List ErrMsg :=
  if name.length < 2 then [.nameTooShort]
  else if name.length > 255 then [.nameTooLong]
  else if !nameMatches name then [.nameInvalidChars]
  else []

/-- Required fields of `validate_hired_employee`, in source order. -/
def requiredEmpFields : List (String × (EmpRecord → Option Val)) :=
  [("name", EmpRecord.name), ("datetime", EmpRecord.datetime),
   ("department_id", EmpRecord.department_id), ("job_id", EmpRecord.job_id)]

/-- Names of the required employee fields that fail the presence test. -/
def missingEmpFields (r : EmpRecord) : List String :=
  (requiredEmpFields.filter (fun p => valMissing (p.2 r))).map (·.1)

/-- The `department_id` checks of `validate_hired_employee`
(`depts` is the set of committed department ids). -/
def deptErrors (depts : List Int) (v : Option Val) : List ErrMsg :=
  match pyIntOfVal (v.getD (.strv "")) with
  | none => [.deptNotInt]
  | some n =>
      if n ≤ 0 then [.deptNotPositive]
      else if !depts.contains n then [.deptNotFound n]
      else []

/-- The `job_id` checks of `validate_hired_employee`. -/
def jobErrors (jobs : List Int) (v : Option Val) : List ErrMsg :=
  match pyIntOfVal (v.getD (.strv "")) with
  | none => [.jobNotInt]
  | some n =>
      if n ≤ 0 then [.jobNotPositive]
      else if !jobs.contains n then [.jobNotFound n]
      else []

/-- The optional-id checks of `validate_hired_employee` (`emps` is the set
of committed employee ids). -/
def empIdErrors (emps : List Int) (v : Val) : List ErrMsg :=
  match pyIntOfVal v with
  | none => [.idNotInt]
  | some n =>
      if n ≤ 0 ∨ n > 2147483647 then [.idOutOfRange]
      else if emps.contains n then [.idAlreadyExists n]
      else []

/-- Embedding of `DataQualityValidator.validate_hired_employee`.  `depts`,
`jobs`, `emps` are the ids committed in the store at validation time and
`now` is `timezone.now()` normalized to UTC. -/
def validateHiredEmployee (depts jobs emps : List Int) (now : Ts)
    (r : EmpRecord) : VResult :=
  let missing := missingEmpFields r
  if missing ≠ [] then
    .reject (missing.map .missingRequired) .missingRequiredFields
  else
    let name := pyStrip (pyStrOfVal ((r.name).getD (.strv "")))
    let errs1 := nameErrors name
    match (r.datetime).getD (.strv "") with
    | .intv _ =>
        -- not str / pd.Timestamp / datetime: early return with
        -- "Tipo de fecha inválido"
        .reject (errs1 ++ [.badDateType]) .validationError
    | .strv s =>
        match strptimeAny s with
        | none =>
            -- early return with "Formato de fecha inválido"
            .reject (errs1 ++ [.badDateFormat]) .validationError
        | some dt =>
            let errs2 := errs1 ++ (if tsLt now dt then [.futureDate] else [])
            let errs3 := errs2 ++ deptErrors depts r.department_id
            let errs4 := errs3 ++ jobErrors jobs r.job_id
            let errs5 := errs4 ++
              (match r.id with
               | none => []
               | some v => empIdErrors emps v)
            if errs5 ≠ [] then .reject errs5 .validationError else .ok

/-- The optional-id checks shared by `validate_department` and
`validate_job` (`ids` is the set of committed ids of that table). -/
def deptJobIdErrors (ids : List Int) (v : Option Val) : List ErrMsg :=
  match v with
  | none => []
  | some w =>
      match pyIntOfVal w with
      | none => [.idNotInt]
      | some n =>
          if n ≤ 0 then [.idNotPositive]
          else if ids.contains n then [.idAlreadyExists n]
          else []

/-- Embedding of `DataQualityValidator.validate_department` (`depts` is
the set of committed department ids). -/
def validateDepartment (depts : List Int) (r : IdNameRecord) : VResult :=
  if valMissing r.name then
    .reject [.missingRequired "name"] .missingRequiredFields
  else
    let name := pyStrip (pyStrOfVal ((r.name).getD (.strv "")))
    let errs := nameErrors name ++ deptJobIdErrors depts r.id
    if errs ≠ [] then .reject errs .validationError else .ok

/-- Embedding of `DataQualityValidator.validate_job` (`jobs` is the set of
committed job ids). -/
def validateJob (jobs : List Int) (r : IdNameRecord) : VResult :=
  if valMissing r.name then
    .reject [.missingRequired "name"] .missingRequiredFields
  else
    let name := pyStrip (pyStrOfVal ((r.name).getD (.strv "")))
    let errs := nameErrors name ++ deptJobIdErrors jobs r.id
    if errs ≠ [] then .reject errs .validationError else .ok

/-- ASCII lowering, the part of Python `str.lower()` exercised by the
cleaning filters (their comparison lists are ASCII). -/
def asciiLowerChar (c : Char) : Char :=
  if 'A' ≤ c ∧ c ≤ 'Z' then Char.ofNat (c.toNat + 32) else c

/-- Embedding of `str.lower()` for the cleaning filters. -/
def asciiLower (s : String) : String := ⟨s.data.map asciiLowerChar⟩

/-- A committed `hired_employees` row; `idOpt = none` means the id was
assigned by the store's identity sequence (id-omitting COPY). -/
structure EmpRow where
  idOpt : Option Int
  name : String
  dt : Ts
  dept : Int
  job : Int
deriving DecidableEq, Repr

/-- Committed store state: the id sets of `departments` and `jobs` and the
rows of `hired_employees`.  (Only the columns the claims mention are
modelled.) -/
structure DBState where
  depts : List Int
  jobs : List Int
  emps : List EmpRow
deriving DecidableEq, Repr

/-- The foreign-key constraints declared in `models.py`
(`HiredEmployee.department -> Department`, `HiredEmployee.job -> Job`),
enforced by the store on every insert. -/
def fkOk (db : DBState) (r : EmpRow) : Bool :=
  db.depts.contains r.dept && db.jobs.contains r.job

/-- No element occurs twice (executable form of `List.Nodup`). -/
def nodupBool [DecidableEq α] : List α → Bool
  | [] => true
  | x :: xs => !xs.contains x && nodupBool xs

/-- The explicit ids carried by a list of employee rows. -/
def rowIds (rows : List EmpRow) : List Int :=
  rows.filterMap (fun r => r.idOpt)

/-- The explicit ids committed in the `hired_employees` table. -/
def empIds (db : DBState) : List Int := rowIds db.emps

/-- The primary-key constraint on `hired_employees.id` declared in
`models.py` (`id = models.IntegerField(primary_key=True)`), enforced by
the store on every COPY transaction: the inserted explicit ids are
pairwise distinct and none is already present in the table.  (Values
assigned by the identity sequence on the id-omitting path are not
tracked; the sequence's own collision failures are outside the model.) -/
def pkOk (db : DBState) (rows : List EmpRow) : Bool :=
  nodupBool (rowIds rows)
  && (rowIds rows).all (fun n => !(empIds db).contains n)

/-- Fuel-driven worker for `chunksOf`; the fuel only drives structural
recursion and is irrelevant once at least the list length. -/
def chunksOfGo (B : Nat) : Nat → List α → List (List α)
  | _, [] => []
  | 0, _ :: _ => []
  | fuel + 1, x :: xs => (x :: xs).take B :: chunksOfGo B fuel ((x :: xs).drop B)

/-- Split a list into consecutive chunks of size `B`, the slices
`df.iloc[i:i + self.batch_size]` taken by `_load_with_copy_batches`. -/
def chunksOf (B : Nat) (l : List α) : List (List α) :=
  if B = 0 then [] else chunksOfGo B l.length l

/-- Chunk-by-chunk loading loop of `_load_with_copy_batches`: each chunk
is handed to `load` (its own connection and transaction); the first
raised error stops the loop, leaving the state already committed by the
earlier chunks. -/
def loadChunkedGo (load : σ → List α → Except ε σ) :
    σ → List (List α) → σ × Option ε
  | s, [] => (s, none)
  | s, c :: cs =>
      match load s c with
      | .ok s' => loadChunkedGo load s' cs
      | .error e => (s, some e)

/-- Embedding of `_load_with_copy_batches` with batch size `B`
(`self.batch_size = 1000` in the service). -/
def loadChunked (load : σ → List α → Except ε σ) (B : Nat) (s : σ)
    (rows : List α) : σ × Option ε :=
  loadChunkedGo load s (chunksOf B rows)

/-- The problem values replaced with `pd.NA` by `_clean_dataframe`. -/
def junkStrs : List String :=
  ["nan", "NaN", "NAN", "null", "NULL", "None", "NONE", ""]

/-- Embedding of `df.replace([...], pd.NA)` on one cell. -/
def replaceJunk (c : Option String) : Option String :=
  match c with
  | some s => if junkStrs.contains s then none else some s
  | none => none

/-- A raw `hired_employees` CSV row.  `pd.read_csv` is called with
`na_filter=False`, so every cell arrives as a string (`some`); `none`
models a cell already replaced with `pd.NA`. -/
structure CsvEmp where
  id : Option String := none
  name : Option String := none
  datetime : Option String := none
  department_id : Option String := none
  job_id : Option String := none
deriving DecidableEq, Repr

/-- Row after the critical-field `dropna` of `_clean_dataframe`. -/
structure EmpStage where
  idS : String
  name : String
  dtS : String
  deptS : String
  jobS : String
deriving DecidableEq, Repr

/-- Fully cleaned row, ready for `_copy_hired_employees` (the id column
is kept as the original string, exactly as in the DataFrame). -/
structure EmpClean where
  idS : String
  name : String
  dt : Ts
  dept : Int
  job : Int
deriving DecidableEq, Repr

/-- Keep the first row for each key, the effect of
`df.drop_duplicates(subset=['id'], keep='first')`. -/
def dedupByKey [DecidableEq κ] (key : α → κ) : List κ → List α → List α
  | _, [] => []
  | seen, x :: xs =>
      if seen.contains (key x) then dedupByKey key seen xs
      else x :: dedupByKey key (key x :: seen) xs

/-- Embedding of `_clean_dataframe(df, 'hired_employees')`.  `pdDt` is the
`pd.to_datetime(..., errors='coerce')` parser (a parameter of the model;
it parses at least the ISO-8601 strings `strptimeAny` parses);
`pd.to_numeric(..., errors='coerce')` is embedded for integer-formatted
cells as `pyIntOfString`.  Steps follow the source in order: drop
all-empty rows, replace problem values with NA, drop rows with null
critical fields (including `id`), strip and filter names, coerce and drop
invalid datetimes, strip/filter/coerce the two foreign-key columns, keep
only positive ids, and de-duplicate by `id` keeping the first row (the
second de-duplication pass in the source removes nothing further). -/
def cleanEmpRows (pdDt : String → Option Ts) (rows : List CsvEmp) :
    List EmpClean :=
  let r1 := rows.filter (fun r =>
    r.id.isSome || r.name.isSome || r.datetime.isSome ||
    r.department_id.isSome || r.job_id.isSome)
  let r2 := r1.map (fun r => CsvEmp.mk (replaceJunk r.id) (replaceJunk r.name)
    (replaceJunk r.datetime) (replaceJunk r.department_id)
    (replaceJunk r.job_id))
  let r3 := r2.filterMap (fun r =>
    match r.id, r.name, r.datetime, r.department_id, r.job_id with
    | some i, some n, some d, some dp, some j =>
        some (EmpStage.mk i n d dp j)
    | _, _, _, _, _ => none)
  let r4 := (r3.map (fun r => { r with name := pyStrip r.name })).filter
    (fun r => r.name ≠ "" &&
      !(["nan", "none", "null", ""].contains (asciiLower r.name)))
  let r5 := r4.filterMap (fun r => (pdDt r.dtS).map (fun t => (r, t)))
  let r6 := r5.map (fun rt =>
    ({ rt.1 with deptS := pyStrip rt.1.deptS, jobS := pyStrip rt.1.jobS },
     rt.2))
  let r7 := r6.filter (fun rt =>
    !(junkStrs.contains rt.1.deptS) && !(junkStrs.contains rt.1.jobS))
  let r8 := r7.filterMap (fun rt => do
    let d ← pyIntOfString rt.1.deptS
    let j ← pyIntOfString rt.1.jobS
    pure (EmpClean.mk rt.1.idS rt.1.name rt.2 d j))
  let r9 := r8.filter (fun r => 0 < r.dept && 0 < r.job)
  dedupByKey EmpClean.idS [] r9

/-- Embedding of `_copy_hired_employees` inside `_load_with_copy` for one
chunk: COPY with the explicit column list `(id, name, datetime,
department_id, job_id)`.  The store parses the id strings as integers and
checks the declared foreign keys; any violation raises, aborting the
chunk's transaction (no row of the chunk is committed). -/
def copyHiredEmployeesCsv (db : DBState) (rows : List EmpClean) :
    Except Unit DBState :=
  match rows.mapM (fun r => (pyIntOfString r.idS).map
      (fun n => EmpRow.mk (some n) r.name r.dt r.dept r.job)) with
  | none => .error ()
  | some rs =>
      if rs.all (fkOk db) && pkOk db rs then
        .ok { db with emps := db.emps ++ rs }
      else .error ()

/-- Embedding of `_process_csv` for `hired_employees` after the frame has
been read: clean, return early when empty, otherwise load in chunks of
1000 via COPY. -/
def processCsvEmp (pdDt : String → Option Ts) (db : DBState)
    (rows : List CsvEmp) : DBState × Option Unit :=
  let cleaned := cleanEmpRows pdDt rows
  if cleaned = [] then (db, none)
  else loadChunked copyHiredEmployeesCsv 1000 db cleaned

/-- Effect of `TRUNCATE TABLE t RESTART IDENTITY CASCADE`: the table is
emptied, and truncating `departments` or `jobs` cascades to
`hired_employees` through the declared foreign keys. -/
def clearTable (t : String) (db : DBState) : DBState :=
  if t = "departments" then { db with depts := [], emps := [] }
  else if t = "jobs" then { db with jobs := [], emps := [] }
  else if t = "hired_employees" then { db with emps := [] }
  else db

/-- Embedding of `_truncate_table_before_load`: when the TRUNCATE fails
(`truncOk = false`) the exception is caught and logged and the state is
unchanged; the method returns normally in both cases. -/
def truncateTableBeforeLoad (truncOk : Bool) (t : String)
    (db : DBState) : DBState :=
  if truncOk then clearTable t db else db

/-- Embedding of `load_from_minio_to_postgres('hired_employees')`:
truncate (best-effort), then process each staged CSV file; a failure in
one file is caught and logged and the loop continues with the next file,
and the method returns `True` after the loop. -/
def loadEmpFromStorage (truncOk : Bool) (pdDt : String → Option Ts)
    (files : List (List CsvEmp)) (db : DBState) : Bool × DBState :=
  let db0 := truncateTableBeforeLoad truncOk "hired_employees" db
  (true, files.foldl (fun acc f => (processCsvEmp pdDt acc f).1) db0)

/-- Conversion of a buffered payload on the with-id flush path of the
consumer (`pd.to_datetime` / `pd.to_numeric` with `errors='coerce'`,
then `dropna` on `id`, `datetime`, `department_id`, `job_id`). -/
def payloadRowWithId (pdDt : String → Option Ts) (p : EmpRecord) :
    Option EmpRow :=
  match p.datetime with
  | none => none
  | some dv =>
    match (match dv with | .strv s => pdDt s | .intv _ => none) with
    | none => none
    | some t =>
      match p.id with
      | none => none
      | some iv =>
        match pyIntOfVal iv with
        | none => none
        | some i =>
          match p.department_id with
          | none => none
          | some dpv =>
            match pyIntOfVal dpv with
            | none => none
            | some d =>
              match p.job_id with
              | none => none
              | some jv =>
                match pyIntOfVal jv with
                | none => none
                | some j =>
                    some ⟨some i, pyStrOfVal ((p.name).getD (.strv "")),
                      t, d, j⟩

/-- Conversion of a buffered payload on the no-id flush path
(`_copy_hired_employees_no_id` re-coerces datetime and the two foreign
keys and drops rows where they are invalid); the id column is omitted so
the store assigns the id. -/
def payloadRowNoId (pdDt : String → Option Ts) (p : EmpRecord) :
    Option EmpRow :=
  match p.datetime with
  | none => none
  | some dv =>
    match (match dv with | .strv s => pdDt s | .intv _ => none) with
    | none => none
    | some t =>
      match p.department_id with
      | none => none
      | some dpv =>
        match pyIntOfVal dpv with
        | none => none
        | some d =>
          match p.job_id with
          | none => none
          | some jv =>
            match pyIntOfVal jv with
            | none => none
            | some j =>
                some ⟨none, pyStrOfVal ((p.name).getD (.strv "")), t, d, j⟩

/-- Embedding of `_load_with_copy` + `_copy_hired_employees` for one
buffered batch (single transaction): commit iff every row satisfies the
declared foreign keys. -/
def copyHiredEmployeesRows (db : DBState) (rows : List EmpRow) :
    Except Unit DBState :=
  if rows.all (fkOk db) && pkOk db rows then
    .ok { db with emps := db.emps ++ rows }
  else .error ()

/-- Embedding of `_load_with_copy_no_id` + `_copy_hired_employees_no_id`
(single transaction, id column omitted). -/
def copyHiredEmployeesNoId (db : DBState) (rows : List EmpRow) :
    Except Unit DBState :=
  if rows.all (fkOk db) && pkOk db rows then
    .ok { db with emps := db.emps ++ rows }
  else .error ()

/-- Embedding of the consumer's `_flush` for `hired_employees`,
parametric in the two bulk-load functions so that every load outcome is
covered.  The buffer is split into payloads with and without an explicit
id; the with-id sub-batch is loaded first, and an exception anywhere is
caught, after which the buffer is cleared (`buffers[table].clear()` runs
in both the success path and the `except` handler; the records of a
failed flush are not retried). -/
def flushEmpWith (loadW loadN : DBState → List EmpRow → Except Unit DBState)
    (pdDt : String → Option Ts) (db : DBState) (buf : List EmpRecord) :
    DBState × List EmpRecord :=
  if buf = [] then (db, buf)
  else
    let withId := buf.filter (fun p => p.id.isSome)
    let withoutId := buf.filter (fun p => p.id.isNone)
    let step1 : Except Unit DBState :=
      if withId.isEmpty then .ok db
      else loadW db (withId.filterMap (payloadRowWithId pdDt))
    match step1 with
    | .error _ => (db, [])
    | .ok db1 =>
        let step2 : Except Unit DBState :=
          if withoutId.isEmpty then .ok db1
          else loadN db1 (withoutId.filterMap (payloadRowNoId pdDt))
        match step2 with
        | .error _ => (db1, [])
        | .ok db2 => (db2, [])

/-- The consumer's `_flush` for `hired_employees` with the concrete COPY
loaders. -/
def flushEmp (pdDt : String → Option Ts) (db : DBState)
    (buf : List EmpRecord) : DBState × List EmpRecord :=
  flushEmpWith copyHiredEmployeesRows copyHiredEmployeesNoId pdDt db buf

/-- Conversion of a buffered `departments`/`jobs` payload in `_flush`
(`pd.to_numeric(tmp['id'], errors='coerce')` then
`dropna(subset=['id','name'])`). -/
def payloadIdName (p : IdNameRecord) : Option (Int × String) := do
  let iv ← p.id
  let i ← pyIntOfVal iv
  let nv ← p.name
  pure (i, pyStrOfVal nv)

/-- Embedding of the consumer's `_flush` for `departments` or `jobs`,
parametric in the bulk-load function.  If no buffered payload carries an
`id` key the DataFrame has no `id` column and `tmp['id']` raises a
`KeyError`, which the `except` handler catches; in every case the buffer
ends empty. -/
def flushIdNameWith (load : DBState → List (Int × String) →
      Except Unit DBState) (db : DBState) (buf : List IdNameRecord) :
    DBState × List IdNameRecord :=
  if buf = [] then (db, buf)
  else if buf.all (fun p => p.id.isNone) then (db, [])
  else
    match load db (buf.filterMap payloadIdName) with
    | .error _ => (db, [])
    | .ok db' => (db', [])

/-- Per-table status collected by `run_full_migration`. -/
inductive MigStatus where
  | success
  | failed
  | fileNotFound
deriving DecidableEq, Repr

/-- The tables of `run_full_migration`, in the insertion order of its
`csv_files` dict (the order the `for` loop iterates). -/
def fullMigrationTables : List String :=
  ["hired_employees", "departments", "jobs"]

/-- Status computed for one table by the body of `run_full_migration`'s
loop: file check, then stage-to-storage, then truncate-load. -/
def tableStatus (fileExists csvOk pgOk : String → Bool) (t : String) :
    MigStatus :=
  if fileExists t then
    if csvOk t then (if pgOk t then .success else .failed) else .failed
  else .fileNotFound

/-- Embedding of `DataMigrationService.run_full_migration`: iterate over
all tables in dict order, collecting a status per table; the loop never
breaks early. -/
def runFullMigration (fileExists csvOk pgOk : String → Bool) :
    List (String × MigStatus) :=
  fullMigrationTables.map (fun t => (t, tableStatus fileExists csvOk pgOk t))

/-- The fixed order of the `run_migration_truncate_load` command. -/
def commandTables : List String :=
  ["departments", "jobs", "hired_employees"]

/-- Embedding of `Command._migrate_table_truncate_load`: file check, then
upload, then load, each failure returning `False`. -/
def migrateTableTruncateLoad (fileExists csvOk pgOk : String → Bool)
    (t : String) : Bool :=
  fileExists t && csvOk t && pgOk t

/-- The sequential steps of `Command.handle`: migrate each table in
order, and `return` at the first failure without touching the remaining
tables.  Returns the tables attempted and whether the run completed. -/
def commandHandleGo (fileExists csvOk pgOk : String → Bool) :
    List String → List String × Bool
  | [] => ([], true)
  | t :: ts =>
      if migrateTableTruncateLoad fileExists csvOk pgOk t then
        let r := commandHandleGo fileExists csvOk pgOk ts
        (t :: r.1, r.2)
      else ([t], false)

/-- Embedding of `run_migration_truncate_load.Command.handle`. -/
def commandHandle (fileExists csvOk pgOk : String → Bool) :
    List String × Bool :=
  commandHandleGo fileExists csvOk pgOk commandTables

/-- Outcome of fetching and decoding one backup partition (download plus
`pq.read_table`); `failPart` models an exception on that partition. -/
inductive PartFetch where
  | okPart (rows : List EmpRow)
  | failPart
deriving DecidableEq, Repr

/-- Embedding of `_restore_dataframe_to_postgres` for `hired_employees`:
the frame is copied chunk by chunk on one connection and committed once
at the end, so the partition is all-or-nothing.  Each chunk's COPY uses
the id column list when some row of the chunk has an id (a null id then
violates the primary key) and the id-omitting list otherwise; the store
checks the declared foreign keys. -/
def restoreEmpDf (chunk : Nat) (db : DBState) (rows : List EmpRow) :
    Except Unit DBState :=
  -- `range(0, len(df), 0)` raises `ValueError`, so a zero chunk size makes
  -- the partition load raise before copying anything
  if chunk = 0 then .error ()
  else
    let copyOkCk : List EmpRow → Bool := fun c =>
      if c.any (fun r => r.idOpt.isSome) then
        c.all (fun r => r.idOpt.isSome && fkOk db r)
      else c.all (fkOk db)
    if (chunksOf chunk rows).all copyOkCk && pkOk db rows then
      .ok { db with emps := db.emps ++ rows }
    else .error ()

/-- The partition loop of `restore_table_from_parquet_in_minio`: empty
frames are skipped, a fetch or load failure propagates to the outer
handler which returns `False`, and later partitions are not processed. -/
def restoreEmpGo (chunk : Nat) (db : DBState) :
    List PartFetch → Bool × DBState
  | [] => (true, db)
  | .failPart :: _ => (false, db)
  | .okPart rows :: rest =>
      if rows = [] then restoreEmpGo chunk db rest
      else
        match restoreEmpDf chunk db rows with
        | .ok db' => restoreEmpGo chunk db' rest
        | .error _ => (false, db)

/-- Embedding of `restore_table_from_parquet_in_minio` for
`hired_employees` with a resolved backup path: best-effort truncate,
then the sorted partition list (`parts`) is processed; with no partition
files the method returns `False`.  The source returns only this boolean —
the aggregated `total_restored` is logged, not returned. -/
def restoreEmpTable (truncOk : Bool) (chunk : Nat) (parts : List PartFetch)
    (db : DBState) : Bool × DBState :=
  let db0 := truncateTableBeforeLoad truncOk "hired_employees" db
  if parts.isEmpty then (false, db0)
  else restoreEmpGo chunk db0 parts

/-- Embedding of the consumer poll-loop body for one `hired_employees`
envelope: `validate_and_log_record` is called and the payload is buffered
only when it validates (rejected payloads are only logged). -/
def consumerIngest (depts jobs emps : List Int) (now : Ts)
    (buf : List EmpRecord) (payload : EmpRecord) : List EmpRecord :=
  if validateHiredEmployee depts jobs emps now payload = .ok then
    buf ++ [payload]
  else buf

/-- The name-format rule of the validator as a predicate on the raw
name: the stripped name passes all three `elif` checks. -/
def nameRuleAccepts (s : String) : Bool :=
  (nameErrors (pyStrip s)).isEmpty

/-- Modelled from the spec: a Unicode letter as in §3/§4.1 ("Unicode
letters (including accented Latin letters)"); the Latin-1 letter ranges
shown here suffice for the claims (every character accepted by this
predicate is a Unicode letter). -/
def specLetterChar (c : Char) : Bool :=
  ('a' ≤ c && c ≤ 'z') || ('A' ≤ c && c ≤ 'Z') ||
  (0xC0 ≤ c.toNat && c.toNat ≤ 0xD6) ||
  (0xD8 ≤ c.toNat && c.toNat ≤ 0xF6) ||
  (0xF8 ≤ c.toNat && c.toNat ≤ 0xFF)

/-- Modelled from the spec: the name rule as the spec states it —
trimmed length 2–255, consisting only of Unicode letters, spaces,
hyphens, and periods. -/
def specNameAccepts (s : String) : Bool :=
  let t := pyStrip s
  decide (2 ≤ t.length) && decide (t.length ≤ 255) &&
  t.data.all (fun c => specLetterChar c || c == ' ' || c == '-' || c == '.')

/-- Modelled from the spec: a required field that is "absent, null, or
blank after trimming" (§4.1 rule 1); an absent key and a Python `None`
are both `Option.none` here. -/
def blankOrAbsent : Option Val → Bool
  | none => true
  | some (.strv s) => pyStrip s == ""
  | some (.intv _) => false

/-- Instrumented chunk loader used to state the chunking claim: the
state counts the chunk loads issued and accumulates the committed rows;
the load of chunk number `k` raises when `failAt = some k` (each chunk is
its own transaction, so earlier chunks stay committed). -/
def appendLoad (failAt : Option Nat) :
    Nat × List α → List α → Except Unit (Nat × List α) :=
  fun st c =>
    if failAt = some (st.1 + 1) then .error ()
    else .ok (st.1 + 1, st.2 ++ c)

/-- The error list accumulated by `validate_hired_employee` past the
presence check, for a record whose datetime string parsed to `dt`
(name check, future check, department check, job check, optional-id
check, in source order). -/
def empValidationErrors (depts jobs emps : List Int) (now : Ts)
    (r : EmpRecord) (dt : Ts) : List ErrMsg :=
  nameErrors (pyStrip (pyStrOfVal ((r.name).getD (.strv ""))))
  ++ (if tsLt now dt then [.futureDate] else [])
  ++ deptErrors depts r.department_id
  ++ jobErrors jobs r.job_id
  ++ (match r.id with
      | none => []
      | some v => empIdErrors emps v)

/-- Sample well-formed employee record with no explicit id, used in the
concrete instances (Department 1 and Job 2 are assumed committed). -/
def sampleEmpOk : EmpRecord :=
  { id := none, name := some (.strv "Ana Ruiz"),
    datetime := some (.strv "2023-01-05T10:00:00"),
    department_id := some (.intv 1), job_id := some (.intv 2) }

/-- Sample current time used in the concrete instances. -/
def sampleNow : Ts := ⟨2024, 1, 1, 0, 0, 0, 0⟩

/-- The timestamp parsed from the sample record's datetime string. -/
def sampleDt : Ts := ⟨2023, 1, 5, 10, 0, 0, 0⟩

/-! ### Helper lemmas about the chunk splitter and the chunk loader -/

theorem chunksOfGo_fuel (B : Nat) (hB : B ≠ 0) :
    ∀ (f1 f2 : Nat) (l : List α), l.length ≤ f1 → l.length ≤ f2 →
      chunksOfGo B f1 l = chunksOfGo B f2 l := by
  intro f1
  induction f1 with
  | zero =>
      intro f2 l h1 h2
      have : l = [] := List.eq_nil_of_length_eq_zero (Nat.le_zero.mp h1)
      subst this
      cases f2 <;> rfl
  | succ f1 ih =>
      intro f2 l h1 h2
      match l with
      | [] => cases f2 <;> rfl
      | x :: xs =>
          match f2 with
          | 0 => simp at h2
          | f2 + 1 =>
              show (x :: xs).take B :: chunksOfGo B f1 ((x :: xs).drop B)
                = (x :: xs).take B :: chunksOfGo B f2 ((x :: xs).drop B)
              congr 1
              exact ih f2 _
                (by simp only [List.length_drop, List.length_cons] at h1 ⊢
                    omega)
                (by simp only [List.length_drop, List.length_cons] at h2 ⊢
                    omega)

theorem chunksOf_nil (B : Nat) : chunksOf B ([] : List α) = [] := by
  unfold chunksOf
  split <;> rfl

theorem chunksOf_zero (l : List α) : chunksOf 0 l = [] := by
  unfold chunksOf
  simp

theorem chunksOf_cons (B : Nat) (hB : B ≠ 0) (x : α) (xs : List α) :
    chunksOf B (x :: xs)
      = (x :: xs).take B :: chunksOf B ((x :: xs).drop B) := by
  unfold chunksOf
  rw [if_neg hB, if_neg hB]
  show (x :: xs).take B :: chunksOfGo B xs.length ((x :: xs).drop B) = _
  congr 1
  exact chunksOfGo_fuel B hB xs.length ((x :: xs).drop B).length _
    (by simp only [List.length_drop, List.length_cons]; omega) le_rfl

theorem chunksOf_flatten (B : Nat) (hB : 0 < B) (l : List α) :
    (chunksOf B l).flatten = l := by
  have key : ∀ n (l : List α), l.length ≤ n → (chunksOf B l).flatten = l := by
    intro n
    induction n with
    | zero =>
        intro l hl
        have : l = [] := List.eq_nil_of_length_eq_zero (Nat.le_zero.mp hl)
        simp [this, chunksOf_nil]
    | succ n ih =>
        intro l hl
        match l with
        | [] => simp [chunksOf_nil]
        | x :: xs =>
            rw [chunksOf_cons B (Nat.pos_iff_ne_zero.mp hB), List.flatten_cons,
              ih _ (by simp only [List.length_drop, List.length_cons] at hl ⊢; omega)]
            exact List.take_append_drop B (x :: xs)
  exact key l.length l le_rfl

theorem chunksOf_length (B : Nat) (hB : 0 < B) (l : List α) :
    (chunksOf B l).length = (l.length + B - 1) / B := by
  have key : ∀ n (l : List α), l.length ≤ n →
      (chunksOf B l).length = (l.length + B - 1) / B := by
    intro n
    induction n with
    | zero =>
        intro l hl
        have : l = [] := List.eq_nil_of_length_eq_zero (Nat.le_zero.mp hl)
        subst this
        simp [chunksOf_nil, Nat.div_eq_of_lt (by omega : B - 1 < B)]
    | succ n ih =>
        intro l hl
        match l with
        | [] => simp [chunksOf_nil, Nat.div_eq_of_lt (by omega : B - 1 < B)]
        | x :: xs =>
            rw [chunksOf_cons B (Nat.pos_iff_ne_zero.mp hB)]
            rw [List.length_cons, ih _ (by simp only [List.length_drop, List.length_cons] at hl ⊢; omega)]
            rw [List.length_drop]
            rcases le_or_lt (x :: xs).length B with hc | hc
            · have h0 : (x :: xs).length - B = 0 := by omega
              rw [h0, Nat.div_eq_of_lt (by omega : 0 + B - 1 < B)]
              have hlen : 0 < (x :: xs).length := by simp
              rw [Nat.div_eq_of_lt_le (by omega : 1 * B ≤ (x :: xs).length + B - 1)
                (by omega : (x :: xs).length + B - 1 < (1 + 1) * B)]
            · have h1 : (x :: xs).length - B + B - 1 = (x :: xs).length - 1 := by
                omega
              rw [h1]
              have h2 : (x :: xs).length + B - 1 = ((x :: xs).length - 1) + B := by
                omega
              rw [h2, Nat.add_div_right _ hB]
  exact key l.length l le_rfl

theorem chunksOf_take_flatten (B : Nat) (hB : 0 < B) (m : Nat) (l : List α) :
    ((chunksOf B l).take m).flatten = l.take (m * B) := by
  induction m generalizing l with
  | zero => simp
  | succ m ih =>
      match l with
      | [] => simp [chunksOf_nil]
      | x :: xs =>
          rw [chunksOf_cons B (Nat.pos_iff_ne_zero.mp hB), List.take_succ_cons,
            List.flatten_cons, ih]
          have : (m + 1) * B = B + m * B := by ring
          rw [this, List.take_add]

theorem chunksOf_sublists_mem (B : Nat) (l : List α) (c : List α)
    (hc : c ∈ chunksOf B l) (r : α) (hr : r ∈ c) : r ∈ l := by
  have key : ∀ n (l : List α), l.length ≤ n →
      ∀ c ∈ chunksOf B l, ∀ r ∈ c, r ∈ l := by
    intro n
    induction n with
    | zero =>
        intro l hl c hc
        have : l = [] := List.eq_nil_of_length_eq_zero (Nat.le_zero.mp hl)
        subst this
        simp [chunksOf_nil] at hc
    | succ n ih =>
        intro l hl c hc r hr
        match l with
        | [] => simp [chunksOf_nil] at hc
        | x :: xs =>
            by_cases hB : B = 0
            · rw [hB, chunksOf_zero] at hc
              cases hc
            · rw [chunksOf_cons B hB] at hc
              rcases List.mem_cons.mp hc with h | h
              · subst h
                exact List.mem_of_mem_take hr
              · have := ih _ (by simp only [List.length_drop, List.length_cons] at hl ⊢; omega) c h r hr
                exact List.mem_of_mem_drop this
  exact key l.length l le_rfl c hc r hr

theorem loadChunkedGo_append_ok (cs : List (List α)) :
    ∀ c0 (acc : List α),
      loadChunkedGo (appendLoad none) (c0, acc) cs
        = ((c0 + cs.length, acc ++ cs.flatten), none) := by
  induction cs with
  | nil => intro c0 acc; simp [loadChunkedGo]
  | cons c cs ih =>
      intro c0 acc
      rw [loadChunkedGo]
      simp only [appendLoad, reduceCtorEq, if_false, ih, List.flatten_cons,
        List.length_cons]
      refine congrArg (fun p => (p, (none : Option Unit))) ?_
      refine Prod.ext ?_ ?_
      · simp; omega
      · simp

theorem loadChunkedGo_append_fail (k : Nat) (cs : List (List α)) :
    ∀ c0 (acc : List α), c0 < k → k ≤ c0 + cs.length →
      loadChunkedGo (appendLoad (some k)) (c0, acc) cs
        = ((k - 1, acc ++ (cs.take (k - 1 - c0)).flatten), some ()) := by
  induction cs with
  | nil =>
      intro c0 acc h1 h2
      simp at h2
      omega
  | cons c cs ih =>
      intro c0 acc h1 h2
      by_cases hk : k = c0 + 1
      · rw [loadChunkedGo]
        simp only [appendLoad, hk, if_pos rfl]
        have h0 : c0 + 1 - 1 - c0 = 0 := by omega
        simp [h0]
      · rw [loadChunkedGo]
        have hne : (some k = some (c0 + 1)) = False := by
          simp
          omega
        simp only [appendLoad, hne, if_false]
        rw [ih (c0 + 1) (acc ++ c) (by omega) (by simp at h2 ⊢; omega)]
        have hs : k - 1 - c0 = (k - 1 - (c0 + 1)) + 1 := by omega
        rw [hs, List.take_succ_cons, List.flatten_cons, List.append_assoc]

/-! ### Claim theorems -/

/-- C4: loading N rows with batch size B issues exactly ceil(N/B) chunk
loads, each committed in its own transaction, and a failure raised by the
load of chunk k leaves exactly the rows of chunks 1..k-1 committed, with
chunks k and later contributing no rows. -/
theorem chunked_load_batches (rows : List α) (B k : Nat) (hB : 0 < B)
    (hk : 1 ≤ k) :
    (chunksOf B rows).length = (rows.length + B - 1) / B
    ∧ loadChunked (appendLoad none) B (0, ([] : List α)) rows
        = (((rows.length + B - 1) / B, rows), none)
    ∧ (k ≤ (rows.length + B - 1) / B →
        loadChunked (appendLoad (some k)) B (0, ([] : List α)) rows
          = ((k - 1, rows.take ((k - 1) * B)), some ())) := by
  have hlen := chunksOf_length B hB rows
  refine ⟨hlen, ?_, ?_⟩
  · rw [loadChunked, loadChunkedGo_append_ok, chunksOf_flatten B hB, hlen]
    simp
  · intro hkle
    rw [loadChunked,
      loadChunkedGo_append_fail k _ 0 [] (by omega)
        (by rw [Nat.zero_add, hlen]; exact hkle)]
    rw [List.nil_append]
    have := chunksOf_take_flatten B hB (k - 1) rows
    simp [this]

/-- Witness for C4 at rows = [0,1,2,3,4], B = 2, k = 2: three chunk loads
on success, and failure on chunk 2 leaves exactly chunk 1 committed. -/
theorem chunked_load_batches_witness :
    0 < 2 ∧ 1 ≤ 2 ∧ 2 ≤ (([0, 1, 2, 3, 4] : List Nat).length + 2 - 1) / 2 ∧
    loadChunked (appendLoad (some 2)) 2 (0, ([] : List Nat)) [0, 1, 2, 3, 4]
      = ((1, [0, 1]), some ()) :=
  ⟨by decide, by decide, by decide,
    (chunked_load_batches [0, 1, 2, 3, 4] 2 2 (by decide) (by decide)).2.2
      (by decide)⟩

/-- C10: after every flush attempt by the streaming consumer, the flushed
table's buffer is empty, for every outcome of the bulk loads — the
records of a failed flush are discarded, never re-buffered. -/
theorem flush_always_clears_buffer
    (loadW loadN : DBState → List EmpRow → Except Unit DBState)
    (loadD : DBState → List (Int × String) → Except Unit DBState)
    (pdDt : String → Option Ts) (db : DBState)
    (bufE : List EmpRecord) (bufD : List IdNameRecord) :
    (flushEmpWith loadW loadN pdDt db bufE).2 = []
    ∧ (flushIdNameWith loadD db bufD).2 = [] := by
  constructor
  · unfold flushEmpWith
    split
    · simpa using ‹bufE = []›
    · dsimp only
      split
      · rfl
      · split <;> rfl
  · unfold flushIdNameWith
    split
    · simpa using ‹bufD = []›
    · split
      · rfl
      · split <;> rfl

/-- C3 (counterexample): with every file present, staging succeeding, and
the truncate-load of `departments` alone failing, `run_full_migration`
still reports a status for `jobs` — it iterates `hired_employees`,
`departments`, `jobs` in dict order and does not stop at the first
failing table. -/
theorem full_migration_order_counterexample :
    runFullMigration (fun _ => true) (fun _ => true)
        (fun t => !(t == "departments"))
      = [("hired_employees", .success), ("departments", .failed),
         ("jobs", .success)]
    ∧ ("jobs", MigStatus.success) ∈
        runFullMigration (fun _ => true) (fun _ => true)
          (fun t => !(t == "departments")) := by
  constructor
  · rfl
  · simp [runFullMigration, fullMigrationTables, tableStatus]

/-- C3 (amended): the step-by-step truncate-load command processes
departments, then jobs, then employees, stopping at the first failing
table; the `run_full_migration` service operation instead iterates
hired_employees, departments, jobs and collects a per-table status map
without stopping at failures. -/
theorem migration_sequencing (fe co pg : String → Bool) :
    commandHandle fe co pg
      = (if migrateTableTruncateLoad fe co pg "departments" then
          if migrateTableTruncateLoad fe co pg "jobs" then
            (["departments", "jobs", "hired_employees"],
              migrateTableTruncateLoad fe co pg "hired_employees")
          else (["departments", "jobs"], false)
        else (["departments"], false))
    ∧ runFullMigration fe co pg
      = [("hired_employees", tableStatus fe co pg "hired_employees"),
         ("departments", tableStatus fe co pg "departments"),
         ("jobs", tableStatus fe co pg "jobs")] := by
  constructor
  · by_cases h1 : migrateTableTruncateLoad fe co pg "departments" <;>
      by_cases h2 : migrateTableTruncateLoad fe co pg "jobs" <;>
      by_cases h3 : migrateTableTruncateLoad fe co pg "hired_employees" <;>
      simp [commandHandle, commandTables, commandHandleGo, h1, h2, h3]
  · rfl

/-- C6 (counterexample): the name `çç` consists of Unicode letters
(accented Latin letters) and has trimmed length 2, so the spec's charset
rule accepts it, but the validator's pattern
`^[a-zA-ZáéíóúÁÉÍÓÚñÑ\s\-\.]+$` rejects it. -/
theorem name_charset_counterexample :
    specNameAccepts "çç" = true ∧ nameRuleAccepts "çç" = false := by
  constructor <;> rfl

/-- C6 (amended): the validator's charset rule accepts a name iff its
trimmed length is between 2 and 255 and every character is an ASCII
letter, one of the accented letters `áéíóúÁÉÍÓÚñÑ`, a whitespace
character, a hyphen, or a period. -/
theorem name_rule_characterization (s : String) :
    nameRuleAccepts s = true ↔
      2 ≤ (pyStrip s).length ∧ (pyStrip s).length ≤ 255 ∧
        ∀ c ∈ (pyStrip s).data, nameChar c = true := by
  have hlen : (pyStrip s).length = (pyStrip s).data.length := rfl
  constructor
  · intro h
    unfold nameRuleAccepts nameErrors at h
    by_cases h1 : (pyStrip s).length < 2
    · simp [h1] at h
    · by_cases h2 : (pyStrip s).length > 255
      · simp [h1, h2] at h
      · by_cases h3 : nameMatches (pyStrip s)
        · refine ⟨by omega, by omega, ?_⟩
          unfold nameMatches at h3
          simp only [Bool.and_eq_true, List.all_eq_true] at h3
          exact h3.2
        · simp [h1, h2, h3] at h
  · rintro ⟨ha, hb, hc⟩
    unfold nameRuleAccepts nameErrors
    have h1 : ¬ (pyStrip s).length < 2 := by omega
    have h2 : ¬ (pyStrip s).length > 255 := by omega
    have hne : ¬ (pyStrip s).data.isEmpty := by
      rw [List.isEmpty_iff]
      intro h
      rw [hlen, h] at ha
      simp at ha
    have h3 : nameMatches (pyStrip s) = true := by
      unfold nameMatches
      simp only [Bool.and_eq_true, List.all_eq_true]
      exact ⟨by simpa using hne, hc⟩
    simp [h1, h2, h3]

theorem blankOrAbsent_valMissing (v : Option Val)
    (h : blankOrAbsent v = true) : valMissing v = true := by
  match v with
  | none => rfl
  | some (.strv s) => simpa [blankOrAbsent, valMissing] using h
  | some (.intv n) => simp [blankOrAbsent] at h

theorem deptErrors_nil_iff (depts : List Int) (v : Option Val) :
    deptErrors depts v = [] ↔
      ∃ d, pyIntOfVal (v.getD (.strv "")) = some d ∧ 0 < d ∧ d ∈ depts := by
  unfold deptErrors
  cases h : pyIntOfVal (v.getD (.strv "")) with
  | none => simp
  | some n =>
      by_cases h1 : n ≤ 0
      · constructor
        · intro hcon
          simp [h1] at hcon
        · rintro ⟨d, hd, hpos, _⟩
          injection hd with hd
          omega
      · by_cases h2 : depts.contains n
        · simp only [h1, if_false]
          constructor
          · intro _
            exact ⟨n, rfl, by omega, List.mem_of_elem_eq_true h2⟩
          · intro _
            simp [h2]
            exact List.mem_of_elem_eq_true h2
        · simp only [h1, if_false]
          constructor
          · intro hcon
            simp [h2] at hcon
            exact ⟨n, rfl, by omega, hcon⟩
          · rintro ⟨d, hd, hpos, hmem⟩
            injection hd with hd
            subst hd
            exact absurd (List.elem_eq_true_of_mem hmem) (by simpa using h2)

theorem jobErrors_nil_iff (jobs : List Int) (v : Option Val) :
    jobErrors jobs v = [] ↔
      ∃ j, pyIntOfVal (v.getD (.strv "")) = some j ∧ 0 < j ∧ j ∈ jobs := by
  unfold jobErrors
  cases h : pyIntOfVal (v.getD (.strv "")) with
  | none => simp
  | some n =>
      by_cases h1 : n ≤ 0
      · constructor
        · intro hcon
          simp [h1] at hcon
        · rintro ⟨j, hj, hpos, _⟩
          injection hj with hj
          omega
      · by_cases h2 : jobs.contains n
        · simp only [h1, if_false]
          constructor
          · intro _
            exact ⟨n, rfl, by omega, List.mem_of_elem_eq_true h2⟩
          · intro _
            simp [h2]
            exact List.mem_of_elem_eq_true h2
        · simp only [h1, if_false]
          constructor
          · intro hcon
            simp [h2] at hcon
            exact ⟨n, rfl, by omega, hcon⟩
          · rintro ⟨j, hj, hpos, hmem⟩
            injection hj with hj
            subst hj
            exact absurd (List.elem_eq_true_of_mem hmem) (by simpa using h2)

theorem empIdErrors_nil_iff (emps : List Int) (v : Val) :
    empIdErrors emps v = [] ↔
      ∃ n, pyIntOfVal v = some n ∧ 0 < n ∧ n ≤ 2147483647 ∧ n ∉ emps := by
  unfold empIdErrors
  cases h : pyIntOfVal v with
  | none => simp
  | some n =>
      by_cases h1 : n ≤ 0 ∨ n > 2147483647
      · constructor
        · intro hcon
          simp [h1] at hcon
        · rintro ⟨m, hm, hpos, hle, _⟩
          injection hm with hm
          omega
      · by_cases h2 : emps.contains n
        · constructor
          · intro hcon
            simp [h1, h2] at hcon
            exact absurd (List.mem_of_elem_eq_true h2) hcon
          · rintro ⟨m, hm, hpos, hle, hmem⟩
            injection hm with hm
            subst hm
            exact absurd (List.mem_of_elem_eq_true h2) hmem
        · constructor
          · intro _
            refine ⟨n, rfl, by omega, by omega, ?_⟩
            intro hmem
            exact h2 (List.elem_eq_true_of_mem hmem)
          · intro _
            simp [h1, h2]
            intro hmem
            exact h2 (List.elem_eq_true_of_mem hmem)

theorem validateHiredEmployee_shape (depts jobs emps : List Int) (now : Ts)
    (r : EmpRecord) (ds : String) (dt : Ts)
    (hpresent : missingEmpFields r = [])
    (hdt : r.datetime = some (.strv ds))
    (hparse : strptimeAny ds = some dt) :
    validateHiredEmployee depts jobs emps now r =
      (if empValidationErrors depts jobs emps now r dt ≠ [] then
        .reject (empValidationErrors depts jobs emps now r dt)
          .validationError
      else .ok) := by
  unfold validateHiredEmployee empValidationErrors
  rw [if_neg (by simp [hpresent]), hdt]
  simp only [Option.getD_some]
  rw [hparse]

/-- C2 (amended): for every employee record whose required fields are
present and whose name and hired_at are well-formed, `validate` returns
success iff department_id and job_id are positive integers referencing
existing rows, the parsed hired_at (normalized to UTC) is not later than
the current time, and any explicit id is a positive integer at most
2147483647 that does not already exist among the committed employees. -/
theorem validate_employee_success_iff (depts jobs emps : List Int)
    (now : Ts) (r : EmpRecord) (ds : String) (dt : Ts)
    (hpresent : missingEmpFields r = [])
    (hname : nameErrors (pyStrip (pyStrOfVal ((r.name).getD (.strv "")))) = [])
    (hdt : r.datetime = some (.strv ds))
    (hparse : strptimeAny ds = some dt) :
    validateHiredEmployee depts jobs emps now r = .ok ↔
      ((∃ d, pyIntOfVal ((r.department_id).getD (.strv "")) = some d ∧
          0 < d ∧ d ∈ depts)
       ∧ (∃ j, pyIntOfVal ((r.job_id).getD (.strv "")) = some j ∧
          0 < j ∧ j ∈ jobs)
       ∧ tsLt now dt = false
       ∧ (∀ v, r.id = some v →
            ∃ n, pyIntOfVal v = some n ∧ 0 < n ∧ n ≤ 2147483647 ∧
              n ∉ emps)) := by
  rw [validateHiredEmployee_shape depts jobs emps now r ds dt hpresent hdt
    hparse]
  constructor
  · intro h
    have herrs : empValidationErrors depts jobs emps now r dt = [] := by
      by_contra hne
      rw [if_pos hne] at h
      cases h
    unfold empValidationErrors at herrs
    rw [hname, List.nil_append] at herrs
    rcases List.append_eq_nil.mp herrs with ⟨herrs2, hid⟩
    rcases List.append_eq_nil.mp herrs2 with ⟨herrs3, hjob⟩
    rcases List.append_eq_nil.mp herrs3 with ⟨hfut, hdept⟩
    have hnf : tsLt now dt = false := by
      cases hts : tsLt now dt with
      | false => rfl
      | true => rw [hts] at hfut; simp at hfut
    refine ⟨(deptErrors_nil_iff depts r.department_id).mp hdept,
      (jobErrors_nil_iff jobs r.job_id).mp hjob, hnf, ?_⟩
    intro v hv
    rw [hv] at hid
    exact (empIdErrors_nil_iff emps v).mp hid
  · rintro ⟨hd, hj, hnf, hid⟩
    have herrs : empValidationErrors depts jobs emps now r dt = [] := by
      unfold empValidationErrors
      rw [hname, hnf]
      have h3 : (match r.id with
          | none => ([] : List ErrMsg)
          | some v => empIdErrors emps v) = [] := by
        cases hv : r.id with
        | none => rfl
        | some v => exact (empIdErrors_nil_iff emps v).mpr (hid v hv)
      rw [h3, (deptErrors_nil_iff depts r.department_id).mpr hd,
        (jobErrors_nil_iff jobs r.job_id).mpr hj]
      simp
    rw [if_neg (by simp [herrs])]

/-- C2 (counterexample): a record whose required fields are present and
well-formed, whose department_id and job_id reference existing rows, and
whose hired_at is in the past is still rejected when its optional
explicit id already exists — the claimed two-sided characterization omits
the id rule. -/
theorem validate_employee_iff_counterexample :
    validateHiredEmployee [1] [2] [7] sampleNow
        { sampleEmpOk with id := some (.intv 7) }
      = .reject [.idAlreadyExists 7] .validationError
    ∧ (∃ d, pyIntOfVal (({ sampleEmpOk with
          id := some (.intv 7) }).department_id.getD (.strv ""))
          = some d ∧ 0 < d ∧ d ∈ ([1] : List Int))
    ∧ (∃ j, pyIntOfVal (({ sampleEmpOk with
          id := some (.intv 7) }).job_id.getD (.strv ""))
          = some j ∧ 0 < j ∧ j ∈ ([2] : List Int))
    ∧ strptimeAny "2023-01-05T10:00:00" = some sampleDt
    ∧ tsLt sampleNow sampleDt = false := by
  refine ⟨rfl, ⟨1, rfl, by norm_num, by simp⟩,
    ⟨2, rfl, by norm_num, by simp⟩, rfl, rfl⟩

/-- Witness for C2 (amended) at the sample record: every hypothesis holds
and the characterization applies. -/
theorem validate_employee_success_iff_witness :
    missingEmpFields sampleEmpOk = []
    ∧ nameErrors (pyStrip (pyStrOfVal ((sampleEmpOk.name).getD (.strv ""))))
        = []
    ∧ sampleEmpOk.datetime = some (.strv "2023-01-05T10:00:00")
    ∧ strptimeAny "2023-01-05T10:00:00" = some sampleDt
    ∧ (validateHiredEmployee [1] [2] [] sampleNow sampleEmpOk = .ok ↔
        ((∃ d, pyIntOfVal ((sampleEmpOk.department_id).getD (.strv ""))
            = some d ∧ 0 < d ∧ d ∈ ([1] : List Int))
         ∧ (∃ j, pyIntOfVal ((sampleEmpOk.job_id).getD (.strv ""))
            = some j ∧ 0 < j ∧ j ∈ ([2] : List Int))
         ∧ tsLt sampleNow sampleDt = false
         ∧ (∀ v, sampleEmpOk.id = some v →
              ∃ n, pyIntOfVal v = some n ∧ 0 < n ∧ n ≤ 2147483647 ∧
                n ∉ ([] : List Int)))) :=
  ⟨rfl, rfl, rfl, rfl,
    validate_employee_success_iff [1] [2] [] sampleNow sampleEmpOk
      "2023-01-05T10:00:00" sampleDt rfl rfl rfl rfl⟩

/-- C5: whenever at least one required field of a record is absent, null,
or blank after trimming, the validator returns the
missing-required-fields error kind with a message listing every missing
field, and never a format or type error — for employees, departments, and
jobs alike. -/
theorem missing_required_fields_rule :
    (∀ (depts jobs emps : List Int) (now : Ts) (r : EmpRecord),
        (∃ p ∈ requiredEmpFields, blankOrAbsent (p.2 r) = true) →
        validateHiredEmployee depts jobs emps now r
            = .reject ((missingEmpFields r).map .missingRequired)
                .missingRequiredFields
          ∧ ∀ p ∈ requiredEmpFields, blankOrAbsent (p.2 r) = true →
              ErrMsg.missingRequired p.1 ∈
                (missingEmpFields r).map ErrMsg.missingRequired)
    ∧ (∀ (depts : List Int) (r : IdNameRecord),
        blankOrAbsent r.name = true →
        validateDepartment depts r
          = .reject [.missingRequired "name"] .missingRequiredFields)
    ∧ (∀ (jobs : List Int) (r : IdNameRecord),
        blankOrAbsent r.name = true →
        validateJob jobs r
          = .reject [.missingRequired "name"] .missingRequiredFields) := by
  refine ⟨?_, ?_, ?_⟩
  · rintro depts jobs emps now r ⟨p, hp, hblank⟩
    have hmem : p ∈ requiredEmpFields.filter (fun q => valMissing (q.2 r)) :=
      List.mem_filter.mpr ⟨hp, blankOrAbsent_valMissing _ hblank⟩
    have hmem1 : p.1 ∈ missingEmpFields r :=
      List.mem_map.mpr ⟨p, hmem, rfl⟩
    have hne : missingEmpFields r ≠ [] := List.ne_nil_of_mem hmem1
    constructor
    · unfold validateHiredEmployee
      rw [if_pos hne]
    · intro q hq hblankq
      refine List.mem_map.mpr ⟨q.1, ?_, rfl⟩
      refine List.mem_map.mpr ⟨q, ?_, rfl⟩
      exact List.mem_filter.mpr ⟨hq, blankOrAbsent_valMissing _ hblankq⟩
  · intro depts r hblank
    unfold validateDepartment
    rw [if_pos (blankOrAbsent_valMissing _ hblank)]
  · intro jobs r hblank
    unfold validateJob
    rw [if_pos (blankOrAbsent_valMissing _ hblank)]

/-- Witness for C5: a record with a blank name and an absent datetime is
rejected with the missing-required-fields kind listing both, and a
department record with no name likewise. -/
theorem missing_required_fields_rule_witness :
    (∃ p ∈ requiredEmpFields, blankOrAbsent
        (p.2 { name := some (.strv " "), datetime := none,
               department_id := some (.intv 3),
               job_id := some (.intv 4) }) = true)
    ∧ validateHiredEmployee [] [] [] sampleNow
        { name := some (.strv " "), datetime := none,
          department_id := some (.intv 3), job_id := some (.intv 4) }
        = .reject [.missingRequired "name", .missingRequired "datetime"]
            .missingRequiredFields
    ∧ validateDepartment [] { id := none, name := none }
        = .reject [.missingRequired "name"] .missingRequiredFields :=
  ⟨⟨("name", EmpRecord.name), List.Mem.head _, by rfl⟩,
   (missing_required_fields_rule.1 [] [] [] sampleNow
      { name := some (.strv " "), datetime := none,
        department_id := some (.intv 3), job_id := some (.intv 4) }
      ⟨("name", EmpRecord.name), List.Mem.head _, by rfl⟩).1,
   missing_required_fields_rule.2.1 [] { id := none, name := none }
     (by rfl)⟩

theorem fkOk_mem (db : DBState) (r : EmpRow) (h : fkOk db r = true) :
    r.dept ∈ db.depts ∧ r.job ∈ db.jobs := by
  unfold fkOk at h
  simp only [Bool.and_eq_true] at h
  exact ⟨List.mem_of_elem_eq_true h.1, List.mem_of_elem_eq_true h.2⟩

theorem fkOk_congr (db1 db2 : DBState) (hd : db1.depts = db2.depts)
    (hj : db1.jobs = db2.jobs) (r : EmpRow) : fkOk db1 r = fkOk db2 r := by
  unfold fkOk
  rw [hd, hj]

theorem nodupBool_iff [DecidableEq α] (l : List α) :
    nodupBool l = true ↔ l.Nodup := by
  induction l with
  | nil => simp [nodupBool]
  | cons x xs ih =>
      simp [nodupBool, ih, List.nodup_cons]

theorem rowIds_append (a b : List EmpRow) :
    rowIds (a ++ b) = rowIds a ++ rowIds b := by
  simp [rowIds, List.filterMap_append]

theorem pkOk_iff (db : DBState) (rows : List EmpRow) :
    pkOk db rows = true ↔
      (rowIds rows).Nodup ∧ ∀ n ∈ rowIds rows, n ∉ empIds db := by
  unfold pkOk
  simp [Bool.and_eq_true, nodupBool_iff, List.all_eq_true]

theorem mapM_option_src (f : α → Option β) :
    ∀ (l : List α) (res : List β), l.mapM f = some res →
      ∀ b ∈ res, ∃ a ∈ l, f a = some b := by
  intro l
  induction l with
  | nil =>
      intro res h b hb
      rw [List.mapM_nil] at h
      injection h with h
      subst h
      cases hb
  | cons a l ih =>
      intro res h b hb
      rw [List.mapM_cons] at h
      cases hfa : f a with
      | none => rw [hfa] at h; simp at h
      | some y =>
          rw [hfa] at h
          cases hml : l.mapM f with
          | none => rw [hml] at h; simp at h
          | some ys =>
              rw [hml] at h
              simp at h
              subst h
              rcases List.mem_cons.mp hb with h | h
              · exact ⟨a, List.mem_cons_self _ _, h ▸ hfa⟩
              · rcases ih ys hml b h with ⟨a', ha', hfa'⟩
                exact ⟨a', List.mem_cons_of_mem _ ha', hfa'⟩

theorem copyHiredEmployeesCsv_inv (db : DBState) (rows : List EmpClean)
    (db' : DBState) (h : copyHiredEmployeesCsv db rows = .ok db') :
    db'.depts = db.depts ∧ db'.jobs = db.jobs ∧
    ∀ r ∈ db'.emps, r ∈ db.emps ∨ fkOk db r = true := by
  unfold copyHiredEmployeesCsv at h
  split at h
  · cases h
  · rename_i rs hrs
    split at h
    · rename_i hall
      injection h with h
      subst h
      refine ⟨rfl, rfl, ?_⟩
      intro r hr
      rcases List.mem_append.mp hr with h | h
      · exact .inl h
      · simp only [Bool.and_eq_true] at hall
        exact .inr (List.all_eq_true.mp hall.1 r h)
    · cases h

theorem copyHiredEmployeesRows_inv (db : DBState) (rows : List EmpRow)
    (db' : DBState) (h : copyHiredEmployeesRows db rows = .ok db') :
    db'.depts = db.depts ∧ db'.jobs = db.jobs ∧
    ∀ r ∈ db'.emps, r ∈ db.emps ∨ fkOk db r = true := by
  unfold copyHiredEmployeesRows at h
  split at h
  · rename_i hall
    injection h with h
    subst h
    refine ⟨rfl, rfl, ?_⟩
    intro r hr
    rcases List.mem_append.mp hr with h | h
    · exact .inl h
    · simp only [Bool.and_eq_true] at hall
      exact .inr (List.all_eq_true.mp hall.1 r h)
  · cases h

theorem copyHiredEmployeesNoId_inv (db : DBState) (rows : List EmpRow)
    (db' : DBState) (h : copyHiredEmployeesNoId db rows = .ok db') :
    db'.depts = db.depts ∧ db'.jobs = db.jobs ∧
    ∀ r ∈ db'.emps, r ∈ db.emps ∨ fkOk db r = true := by
  unfold copyHiredEmployeesNoId at h
  split at h
  · rename_i hall
    injection h with h
    subst h
    refine ⟨rfl, rfl, ?_⟩
    intro r hr
    rcases List.mem_append.mp hr with h | h
    · exact .inl h
    · simp only [Bool.and_eq_true] at hall
      exact .inr (List.all_eq_true.mp hall.1 r h)
  · cases h

theorem restoreEmpDf_inv (chunk : Nat) (db : DBState) (rows : List EmpRow)
    (db' : DBState) (h : restoreEmpDf chunk db rows = .ok db') :
    db'.depts = db.depts ∧ db'.jobs = db.jobs ∧
    ∀ r ∈ db'.emps, r ∈ db.emps ∨ fkOk db r = true := by
  unfold restoreEmpDf at h
  split at h
  · cases h
  · rename_i hch
    simp only [] at h
    split at h
    · rename_i hall
      injection h with h
      subst h
      refine ⟨rfl, rfl, ?_⟩
      intro r hr
      rcases List.mem_append.mp hr with h | h
      · exact .inl h
      · right
        simp only [Bool.and_eq_true] at hall
        have hflat : r ∈ (chunksOf chunk rows).flatten := by
          rw [chunksOf_flatten chunk (Nat.pos_of_ne_zero hch)]
          exact h
        rcases List.mem_flatten.mp hflat with ⟨c, hc, hrc⟩
        have hck := List.all_eq_true.mp hall.1 c hc
        by_cases hany : c.any (fun q => q.idOpt.isSome)
        · rw [if_pos hany] at hck
          have hrk := List.all_eq_true.mp hck r hrc
          simp only [Bool.and_eq_true] at hrk
          exact hrk.2
        · rw [if_neg hany] at hck
          exact List.all_eq_true.mp hck r hrc
    · cases h

theorem loadChunkedGo_fk_inv
    (load : DBState → List β → Except Unit DBState)
    (hload : ∀ s c s', load s c = .ok s' →
      s'.depts = s.depts ∧ s'.jobs = s.jobs ∧
      ∀ r ∈ s'.emps, r ∈ s.emps ∨ fkOk s r = true) :
    ∀ (cs : List (List β)) (db : DBState),
      (loadChunkedGo load db cs).1.depts = db.depts
      ∧ (loadChunkedGo load db cs).1.jobs = db.jobs
      ∧ ∀ r ∈ (loadChunkedGo load db cs).1.emps,
          r ∈ db.emps ∨ fkOk db r = true := by
  intro cs
  induction cs with
  | nil => intro db; exact ⟨rfl, rfl, fun r hr => .inl hr⟩
  | cons c cs ih =>
      intro db
      rw [loadChunkedGo]
      cases hl : load db c with
      | error e => exact ⟨rfl, rfl, fun r hr => .inl hr⟩
      | ok s' =>
          obtain ⟨hd, hj, hmem⟩ := hload db c s' hl
          obtain ⟨ihd, ihj, ihm⟩ := ih s'
          refine ⟨by rw [ihd, hd], by rw [ihj, hj], ?_⟩
          intro r hr
          rcases ihm r hr with h | h
          · exact hmem r h
          · right
            rw [← fkOk_congr s' db hd hj r]
            exact h

theorem processCsvEmp_inv (pdDt : String → Option Ts) (db : DBState)
    (rows : List CsvEmp) :
    (processCsvEmp pdDt db rows).1.depts = db.depts
    ∧ (processCsvEmp pdDt db rows).1.jobs = db.jobs
    ∧ ∀ r ∈ (processCsvEmp pdDt db rows).1.emps,
        r ∈ db.emps ∨ fkOk db r = true := by
  simp only [processCsvEmp]
  split
  · exact ⟨rfl, rfl, fun r hr => .inl hr⟩
  · exact loadChunkedGo_fk_inv copyHiredEmployeesCsv
      (fun s c s' h => copyHiredEmployeesCsv_inv s c s' h) _ db

theorem filesFold_inv (pdDt : String → Option Ts) :
    ∀ (files : List (List CsvEmp)) (db : DBState),
      (files.foldl (fun acc f => (processCsvEmp pdDt acc f).1) db).depts
        = db.depts
      ∧ (files.foldl (fun acc f => (processCsvEmp pdDt acc f).1) db).jobs
        = db.jobs
      ∧ ∀ r ∈ (files.foldl (fun acc f => (processCsvEmp pdDt acc f).1)
          db).emps, r ∈ db.emps ∨ fkOk db r = true := by
  intro files
  induction files with
  | nil => intro db; exact ⟨rfl, rfl, fun r hr => .inl hr⟩
  | cons f files ih =>
      intro db
      obtain ⟨hd, hj, hmem⟩ := processCsvEmp_inv pdDt db f
      obtain ⟨ihd, ihj, ihm⟩ := ih (processCsvEmp pdDt db f).1
      rw [List.foldl_cons]
      refine ⟨by rw [ihd, hd], by rw [ihj, hj], ?_⟩
      intro r hr
      rcases ihm r hr with h | h
      · exact hmem r h
      · right
        rw [← fkOk_congr (processCsvEmp pdDt db f).1 db hd hj r]
        exact h

theorem truncEmp_state (truncOk : Bool) (db : DBState) :
    (truncateTableBeforeLoad truncOk "hired_employees" db).depts = db.depts
    ∧ (truncateTableBeforeLoad truncOk "hired_employees" db).jobs = db.jobs
    ∧ ∀ r ∈ (truncateTableBeforeLoad truncOk "hired_employees" db).emps,
        r ∈ db.emps := by
  cases truncOk with
  | false => exact ⟨rfl, rfl, fun r hr => hr⟩
  | true =>
      have hclear : clearTable "hired_employees" db = { db with emps := [] } :=
        rfl
      unfold truncateTableBeforeLoad
      rw [if_pos rfl, hclear]
      exact ⟨rfl, rfl, fun r hr => by cases hr⟩

theorem restoreEmpGo_inv (chunk : Nat) :
    ∀ (parts : List PartFetch) (db : DBState),
      (restoreEmpGo chunk db parts).2.depts = db.depts
      ∧ (restoreEmpGo chunk db parts).2.jobs = db.jobs
      ∧ ∀ r ∈ (restoreEmpGo chunk db parts).2.emps,
          r ∈ db.emps ∨ fkOk db r = true := by
  intro parts
  induction parts with
  | nil => intro db; exact ⟨rfl, rfl, fun r hr => .inl hr⟩
  | cons part rest ih =>
      intro db
      cases part with
      | failPart => exact ⟨rfl, rfl, fun r hr => .inl hr⟩
      | okPart rows =>
          rw [restoreEmpGo]
          split
          · exact ih db
          · cases hdf : restoreEmpDf chunk db rows with
            | error e => exact ⟨rfl, rfl, fun r hr => .inl hr⟩
            | ok db' =>
                obtain ⟨hd, hj, hmem⟩ := restoreEmpDf_inv chunk db rows db' hdf
                obtain ⟨ihd, ihj, ihm⟩ := ih db'
                refine ⟨by rw [ihd, hd], by rw [ihj, hj], ?_⟩
                intro r hr
                rcases ihm r hr with h | h
                · exact hmem r h
                · right
                  rw [← fkOk_congr db' db hd hj r]
                  exact h

theorem validateOk_refs (depts jobs emps : List Int) (now : Ts)
    (r : EmpRecord) (h : validateHiredEmployee depts jobs emps now r = .ok) :
    (∃ d, pyIntOfVal ((r.department_id).getD (.strv "")) = some d ∧
        0 < d ∧ d ∈ depts)
    ∧ (∃ j, pyIntOfVal ((r.job_id).getD (.strv "")) = some j ∧
        0 < j ∧ j ∈ jobs) := by
  unfold validateHiredEmployee at h
  by_cases hm : missingEmpFields r ≠ []
  · rw [if_pos hm] at h
    cases h
  · rw [if_neg hm] at h
    cases hdv : (r.datetime).getD (.strv "") with
    | intv n => rw [hdv] at h; cases h
    | strv s =>
        rw [hdv] at h
        dsimp only at h
        cases hp : strptimeAny s with
        | none => simp [hp] at h
        | some dt =>
            rw [hp] at h
            dsimp only at h
            split at h <;> split at h <;>
              first
                | (rename_i hnil
                   push_neg at hnil
                   rcases List.append_eq_nil.mp hnil with ⟨h4, _⟩
                   rcases List.append_eq_nil.mp h4 with ⟨h3, hjob⟩
                   rcases List.append_eq_nil.mp h3 with ⟨_, hdept⟩
                   exact ⟨(deptErrors_nil_iff depts r.department_id).mp hdept,
                     (jobErrors_nil_iff jobs r.job_id).mp hjob⟩)
                | simp at h

theorem consumerIngest_mem (depts jobs emps : List Int) (now : Ts)
    (buf : List EmpRecord) (p q : EmpRecord)
    (h : q ∈ consumerIngest depts jobs emps now buf p) :
    q ∈ buf ∨ (q = p ∧ validateHiredEmployee depts jobs emps now p = .ok) := by
  unfold consumerIngest at h
  split at h
  · rename_i hv
    rcases List.mem_append.mp h with h | h
    · exact .inl h
    · exact .inr ⟨List.mem_singleton.mp h, hv⟩
  · exact .inl h

theorem flushEmp_inv (pdDt : String → Option Ts) (db : DBState)
    (buf : List EmpRecord) (r : EmpRow)
    (hr : r ∈ (flushEmp pdDt db buf).1.emps) :
    r ∈ db.emps ∨ fkOk db r = true := by
  unfold flushEmp flushEmpWith at hr
  split at hr
  · exact .inl hr
  · have hstep1 : ∀ (e : Except Unit DBState) (db1 : DBState),
        (if (buf.filter (fun p => p.id.isSome)).isEmpty then Except.ok db
         else copyHiredEmployeesRows db
           ((buf.filter (fun p => p.id.isSome)).filterMap
             (payloadRowWithId pdDt))) = Except.ok db1 →
        db1.depts = db.depts ∧ db1.jobs = db.jobs ∧
        ∀ q ∈ db1.emps, q ∈ db.emps ∨ fkOk db q = true := by
      intro e db1 h1
      split at h1
      · injection h1 with h1
        subst h1
        exact ⟨rfl, rfl, fun q hq => .inl hq⟩
      · exact copyHiredEmployeesRows_inv db _ db1 h1
    dsimp only at hr
    split at hr
    · exact .inl hr
    · rename_i db1 h1
      obtain ⟨hd1, hj1, hm1⟩ := hstep1 (Except.ok db1) db1 h1
      split at hr
      · exact hm1 r hr
      · rename_i db2 h2
        have h2inv : db2.depts = db1.depts ∧ db2.jobs = db1.jobs ∧
            ∀ q ∈ db2.emps, q ∈ db1.emps ∨ fkOk db1 q = true := by
          split at h2
          · injection h2 with h2
            subst h2
            exact ⟨rfl, rfl, fun q hq => .inl hq⟩
          · exact copyHiredEmployeesNoId_inv db1 _ db2 h2
        obtain ⟨hd2, hj2, hm2⟩ := h2inv
        rcases hm2 r hr with h | h
        · exact hm1 r h
        · right
          rw [← fkOk_congr db1 db hd1 hj1 r]
          exact h

/-- C1: a hired-employee row is only committed when its department_id and
job_id reference existing Department and Job rows, on every insert path:
the streaming validator only passes records whose references exist at
validation time, the consumer only buffers records that validate, and the
COPY loads of the streaming flush, the CSV truncate-load, and the restore
enforce the declared foreign keys per transaction (the department and job
id sets are unchanged during each load, so the references existed at
validation/cleaning time too). -/
theorem hired_employee_referential_integrity :
    (∀ (depts jobs emps : List Int) (now : Ts) (r : EmpRecord),
        validateHiredEmployee depts jobs emps now r = .ok →
        (∃ d, pyIntOfVal ((r.department_id).getD (.strv "")) = some d ∧
            0 < d ∧ d ∈ depts)
        ∧ (∃ j, pyIntOfVal ((r.job_id).getD (.strv "")) = some j ∧
            0 < j ∧ j ∈ jobs))
    ∧ (∀ (depts jobs emps : List Int) (now : Ts) (buf : List EmpRecord)
        (p q : EmpRecord), q ∈ consumerIngest depts jobs emps now buf p →
        q ∈ buf ∨ (q = p ∧ validateHiredEmployee depts jobs emps now p
          = .ok))
    ∧ (∀ (truncOk : Bool) (pdDt : String → Option Ts)
        (files : List (List CsvEmp)) (db : DBState) (r : EmpRow),
        r ∈ (loadEmpFromStorage truncOk pdDt files db).2.emps →
        r ∈ db.emps ∨ (r.dept ∈ db.depts ∧ r.job ∈ db.jobs))
    ∧ (∀ (pdDt : String → Option Ts) (db : DBState) (buf : List EmpRecord)
        (r : EmpRow), r ∈ (flushEmp pdDt db buf).1.emps →
        r ∈ db.emps ∨ (r.dept ∈ db.depts ∧ r.job ∈ db.jobs))
    ∧ (∀ (truncOk : Bool) (chunk : Nat) (parts : List PartFetch)
        (db : DBState) (r : EmpRow),
        r ∈ (restoreEmpTable truncOk chunk parts db).2.emps →
        r ∈ db.emps ∨ (r.dept ∈ db.depts ∧ r.job ∈ db.jobs)) := by
  refine ⟨fun depts jobs emps now r h => validateOk_refs depts jobs emps
      now r h,
    fun depts jobs emps now buf p q h => consumerIngest_mem depts jobs
      emps now buf p q h, ?_, ?_, ?_⟩
  · intro truncOk pdDt files db r hr
    unfold loadEmpFromStorage at hr
    obtain ⟨htd, htj, htm⟩ := truncEmp_state truncOk db
    obtain ⟨hfd, hfj, hfm⟩ := filesFold_inv pdDt files
      (truncateTableBeforeLoad truncOk "hired_employees" db)
    rcases hfm r hr with h | h
    · exact .inl (htm r h)
    · right
      rw [fkOk_congr (truncateTableBeforeLoad truncOk "hired_employees"
        db) db htd htj r] at h
      exact fkOk_mem db r h
  · intro pdDt db buf r hr
    rcases flushEmp_inv pdDt db buf r hr with h | h
    · exact .inl h
    · exact .inr (fkOk_mem db r h)
  · intro truncOk chunk parts db r hr
    unfold restoreEmpTable at hr
    obtain ⟨htd, htj, htm⟩ := truncEmp_state truncOk db
    split at hr
    · exact .inl (htm r hr)
    · obtain ⟨hgd, hgj, hgm⟩ := restoreEmpGo_inv chunk parts
        (truncateTableBeforeLoad truncOk "hired_employees" db)
      rcases hgm r hr with h | h
      · exact .inl (htm r h)
      · right
        rw [fkOk_congr (truncateTableBeforeLoad truncOk
          "hired_employees" db) db htd htj r] at h
        exact fkOk_mem db r h

/-- Witness for C1 at a one-row CSV load into a store holding Department
1 and Job 2: the committed row references both. -/
theorem hired_employee_referential_integrity_witness :
    (⟨some 7, "Ana Ruiz", sampleDt, 1, 2⟩ : EmpRow) ∈
      (loadEmpFromStorage true strptimeAny
        [[{ id := some "7", name := some "Ana Ruiz",
            datetime := some "2023-01-05T10:00:00",
            department_id := some "1", job_id := some "2" }]]
        ⟨[1], [2], []⟩).2.emps
    ∧ ((⟨some 7, "Ana Ruiz", sampleDt, 1, 2⟩ : EmpRow) ∈
        (DBState.mk [1] [2] []).emps
      ∨ ((⟨some 7, "Ana Ruiz", sampleDt, 1, 2⟩ : EmpRow).dept ∈
          (DBState.mk [1] [2] []).depts
        ∧ (⟨some 7, "Ana Ruiz", sampleDt, 1, 2⟩ : EmpRow).job ∈
          (DBState.mk [1] [2] []).jobs)) := by
  have hmem : (⟨some 7, "Ana Ruiz", sampleDt, 1, 2⟩ : EmpRow) ∈
      (loadEmpFromStorage true strptimeAny
        [[{ id := some "7", name := some "Ana Ruiz",
            datetime := some "2023-01-05T10:00:00",
            department_id := some "1", job_id := some "2" }]]
        ⟨[1], [2], []⟩).2.emps := by
    have hres : (loadEmpFromStorage true strptimeAny
        [[{ id := some "7", name := some "Ana Ruiz",
            datetime := some "2023-01-05T10:00:00",
            department_id := some "1", job_id := some "2" }]]
        ⟨[1], [2], []⟩).2.emps
        = [(⟨some 7, "Ana Ruiz", sampleDt, 1, 2⟩ : EmpRow)] := by decide
    rw [hres]
    exact List.mem_singleton.mpr rfl
  exact ⟨hmem, hired_employee_referential_integrity.2.2.1 true strptimeAny
    [[{ id := some "7", name := some "Ana Ruiz",
        datetime := some "2023-01-05T10:00:00",
        department_id := some "1", job_id := some "2" }]]
    ⟨[1], [2], []⟩ ⟨some 7, "Ana Ruiz", sampleDt, 1, 2⟩ hmem⟩

theorem copyCsv_uniform (pre : List EmpRow) (db1 db2 : DBState)
    (c : List EmpClean) (hd : db1.depts = db2.depts)
    (hj : db1.jobs = db2.jobs) (hpre : db1.emps = pre ++ db2.emps)
    (hdisj : ∀ r ∈ c, ∀ n, pyIntOfString r.idS = some n →
      n ∉ rowIds pre) :
    (copyHiredEmployeesCsv db1 c = .error ()
      ∧ copyHiredEmployeesCsv db2 c = .error ())
    ∨ ∃ Δ, copyHiredEmployeesCsv db1 c
          = .ok { db1 with emps := db1.emps ++ Δ }
        ∧ copyHiredEmployeesCsv db2 c
          = .ok { db2 with emps := db2.emps ++ Δ } := by
  have hfun : fkOk db1 = fkOk db2 :=
    funext (fun r => fkOk_congr db1 db2 hd hj r)
  have hemp : empIds db1 = rowIds pre ++ empIds db2 := by
    unfold empIds
    rw [hpre, rowIds_append]
  unfold copyHiredEmployeesCsv
  cases hm : c.mapM (fun r => (pyIntOfString r.idS).map
      (fun n => EmpRow.mk (some n) r.name r.dt r.dept r.job)) with
  | none => exact .inl ⟨rfl, rfl⟩
  | some rs =>
      dsimp only
      have hids : ∀ n ∈ rowIds rs, n ∉ rowIds pre := by
        intro n hn
        rcases List.mem_filterMap.mp hn with ⟨row, hrow, hid⟩
        rcases mapM_option_src _ c rs hm row hrow with ⟨cr, hcr, hfcr⟩
        rcases Option.map_eq_some'.mp hfcr with ⟨m, hm2, hmk⟩
        have hrm : row.idOpt = some m := by rw [← hmk]
        rw [hrm] at hid
        injection hid with hid
        subst hid
        exact hdisj cr hcr _ hm2
      have hiff : (rs.all (fkOk db1) && pkOk db1 rs) = true ↔
          (rs.all (fkOk db2) && pkOk db2 rs) = true := by
        rw [hfun]
        simp only [Bool.and_eq_true]
        constructor
        · rintro ⟨h1, h2⟩
          refine ⟨h1, ?_⟩
          rw [pkOk_iff] at h2 ⊢
          refine ⟨h2.1, fun n hn hmem => ?_⟩
          apply h2.2 n hn
          rw [hemp]
          exact List.mem_append.mpr (.inr hmem)
        · rintro ⟨h1, h2⟩
          refine ⟨h1, ?_⟩
          rw [pkOk_iff] at h2 ⊢
          refine ⟨h2.1, fun n hn hmem => ?_⟩
          rw [hemp] at hmem
          rcases List.mem_append.mp hmem with h | h
          · exact hids n hn h
          · exact h2.2 n hn h
      by_cases h2 : (rs.all (fkOk db2) && pkOk db2 rs) = true
      · rw [if_pos (hiff.mpr h2), if_pos h2]
        exact .inr ⟨rs, rfl, rfl⟩
      · rw [if_neg (fun hh => h2 (hiff.mp hh)), if_neg h2]
        exact .inl ⟨rfl, rfl⟩

theorem restoreEmpDf_uniform (chunk : Nat) (pre : List EmpRow)
    (db1 db2 : DBState) (rows : List EmpRow)
    (hd : db1.depts = db2.depts) (hj : db1.jobs = db2.jobs)
    (hpre : db1.emps = pre ++ db2.emps)
    (hdisj : ∀ r ∈ rows, ∀ n, r.idOpt = some n → n ∉ rowIds pre) :
    (restoreEmpDf chunk db1 rows = .error ()
      ∧ restoreEmpDf chunk db2 rows = .error ())
    ∨ (restoreEmpDf chunk db1 rows
          = .ok { db1 with emps := db1.emps ++ rows }
        ∧ restoreEmpDf chunk db2 rows
          = .ok { db2 with emps := db2.emps ++ rows }) := by
  have hfun : fkOk db1 = fkOk db2 :=
    funext (fun r => fkOk_congr db1 db2 hd hj r)
  have hemp : empIds db1 = rowIds pre ++ empIds db2 := by
    unfold empIds
    rw [hpre, rowIds_append]
  have hids : ∀ n ∈ rowIds rows, n ∉ rowIds pre := by
    intro n hn
    rcases List.mem_filterMap.mp hn with ⟨row, hrow, hid⟩
    exact hdisj row hrow n hid
  unfold restoreEmpDf
  by_cases hch : chunk = 0
  · rw [if_pos hch, if_pos hch]
    exact .inl ⟨rfl, rfl⟩
  · rw [if_neg hch, if_neg hch]
    dsimp only
    have hiff : ((chunksOf chunk rows).all (fun c =>
          if c.any (fun r => r.idOpt.isSome) then
            c.all (fun r => r.idOpt.isSome && fkOk db1 r)
          else c.all (fkOk db1)) && pkOk db1 rows) = true ↔
        ((chunksOf chunk rows).all (fun c =>
          if c.any (fun r => r.idOpt.isSome) then
            c.all (fun r => r.idOpt.isSome && fkOk db2 r)
          else c.all (fkOk db2)) && pkOk db2 rows) = true := by
      rw [hfun]
      simp only [Bool.and_eq_true]
      constructor
      · rintro ⟨h1, h2⟩
        refine ⟨h1, ?_⟩
        rw [pkOk_iff] at h2 ⊢
        refine ⟨h2.1, fun n hn hmem => ?_⟩
        apply h2.2 n hn
        rw [hemp]
        exact List.mem_append.mpr (.inr hmem)
      · rintro ⟨h1, h2⟩
        refine ⟨h1, ?_⟩
        rw [pkOk_iff] at h2 ⊢
        refine ⟨h2.1, fun n hn hmem => ?_⟩
        rw [hemp] at hmem
        rcases List.mem_append.mp hmem with h | h
        · exact hids n hn h
        · exact h2.2 n hn h
    by_cases h2 : ((chunksOf chunk rows).all (fun c =>
          if c.any (fun r => r.idOpt.isSome) then
            c.all (fun r => r.idOpt.isSome && fkOk db2 r)
          else c.all (fkOk db2)) && pkOk db2 rows) = true
    · rw [if_pos (hiff.mpr h2), if_pos h2]
      exact .inr ⟨rfl, rfl⟩
    · rw [if_neg (fun hh => h2 (hiff.mp hh)), if_neg h2]
      exact .inl ⟨rfl, rfl⟩

theorem loadChunkedGo_shift
    (load : DBState → List β → Except Unit DBState) (pre : List EmpRow)
    (P : List β → Prop)
    (huni : ∀ db1 db2 c, db1.depts = db2.depts → db1.jobs = db2.jobs →
      db1.emps = pre ++ db2.emps → P c →
      (load db1 c = .error () ∧ load db2 c = .error ())
      ∨ ∃ Δ, load db1 c = .ok { db1 with emps := db1.emps ++ Δ }
          ∧ load db2 c = .ok { db2 with emps := db2.emps ++ Δ }) :
    ∀ (cs : List (List β)) (db1 db2 : DBState),
      db1.depts = db2.depts → db1.jobs = db2.jobs →
      db1.emps = pre ++ db2.emps → (∀ c ∈ cs, P c) →
      (loadChunkedGo load db1 cs).2 = (loadChunkedGo load db2 cs).2
      ∧ ∃ Δ, (loadChunkedGo load db1 cs).1.emps = db1.emps ++ Δ
          ∧ (loadChunkedGo load db2 cs).1.emps = db2.emps ++ Δ := by
  intro cs
  induction cs with
  | nil =>
      intro db1 db2 hd hj hpre hP
      exact ⟨rfl, ⟨[], by simp [loadChunkedGo], by simp [loadChunkedGo]⟩⟩
  | cons c cs ih =>
      intro db1 db2 hd hj hpre hP
      rcases huni db1 db2 c hd hj hpre (hP c (List.mem_cons_self _ _)) with
        ⟨h1, h2⟩ | ⟨Δ, h1, h2⟩
      · rw [loadChunkedGo, loadChunkedGo, h1, h2]
        exact ⟨rfl, ⟨[], by simp, by simp⟩⟩
      · rw [loadChunkedGo, loadChunkedGo, h1, h2]
        dsimp only
        obtain ⟨he, Δ', hh1, hh2⟩ := ih { db1 with emps := db1.emps ++ Δ }
          { db2 with emps := db2.emps ++ Δ } (by simpa using hd)
          (by simpa using hj) (by simp [hpre, List.append_assoc])
          (fun c' hc' => hP c' (List.mem_cons_of_mem _ hc'))
        refine ⟨he, ⟨Δ ++ Δ', ?_, ?_⟩⟩
        · rw [hh1]
          simp [List.append_assoc]
        · rw [hh2]
          simp [List.append_assoc]

theorem processCsvEmp_shift (pdDt : String → Option Ts)
    (pre : List EmpRow) (db1 db2 : DBState) (rows : List CsvEmp)
    (hd : db1.depts = db2.depts) (hj : db1.jobs = db2.jobs)
    (hpre : db1.emps = pre ++ db2.emps)
    (hdisj : ∀ r ∈ cleanEmpRows pdDt rows, ∀ n,
      pyIntOfString r.idS = some n → n ∉ rowIds pre) :
    (processCsvEmp pdDt db1 rows).2 = (processCsvEmp pdDt db2 rows).2
    ∧ ∃ Δ, (processCsvEmp pdDt db1 rows).1.emps = db1.emps ++ Δ
        ∧ (processCsvEmp pdDt db2 rows).1.emps = db2.emps ++ Δ := by
  by_cases hcl : cleanEmpRows pdDt rows = []
  · constructor
    · simp [processCsvEmp, hcl]
    · exact ⟨[], by simp [processCsvEmp, hcl], by simp [processCsvEmp, hcl]⟩
  · have h1 : processCsvEmp pdDt db1 rows
        = loadChunked copyHiredEmployeesCsv 1000 db1
          (cleanEmpRows pdDt rows) := by
      simp [processCsvEmp, hcl]
    have h2 : processCsvEmp pdDt db2 rows
        = loadChunked copyHiredEmployeesCsv 1000 db2
          (cleanEmpRows pdDt rows) := by
      simp [processCsvEmp, hcl]
    rw [h1, h2]
    unfold loadChunked
    refine loadChunkedGo_shift copyHiredEmployeesCsv pre
      (fun c => ∀ r ∈ c, ∀ n, pyIntOfString r.idS = some n →
        n ∉ rowIds pre)
      (fun a b c hd' hj' hp' hP' => copyCsv_uniform pre a b c hd' hj' hp'
        hP') _ db1 db2 hd hj hpre ?_
    intro c hc r hr n hparse
    exact hdisj r (chunksOf_sublists_mem 1000 (cleanEmpRows pdDt rows) c hc
      r hr) n hparse

theorem filesFold_shift (pdDt : String → Option Ts) (pre : List EmpRow) :
    ∀ (files : List (List CsvEmp)) (db1 db2 : DBState),
      db1.depts = db2.depts → db1.jobs = db2.jobs →
      db1.emps = pre ++ db2.emps →
      (∀ f ∈ files, ∀ r ∈ cleanEmpRows pdDt f, ∀ n,
        pyIntOfString r.idS = some n → n ∉ rowIds pre) →
      ∃ Δ, (files.foldl (fun acc f => (processCsvEmp pdDt acc f).1)
            db1).emps = db1.emps ++ Δ
        ∧ (files.foldl (fun acc f => (processCsvEmp pdDt acc f).1)
            db2).emps = db2.emps ++ Δ := by
  intro files
  induction files with
  | nil => intro db1 db2 hd hj hpre hF; exact ⟨[], by simp, by simp⟩
  | cons f files ih =>
      intro db1 db2 hd hj hpre hF
      obtain ⟨_, Δ0, hs1, hs2⟩ := processCsvEmp_shift pdDt pre db1 db2 f
        hd hj hpre (hF f (List.mem_cons_self _ _))
      obtain ⟨hd1, hj1, _⟩ := processCsvEmp_inv pdDt db1 f
      obtain ⟨hd2, hj2, _⟩ := processCsvEmp_inv pdDt db2 f
      obtain ⟨Δ', hh1, hh2⟩ := ih (processCsvEmp pdDt db1 f).1
        (processCsvEmp pdDt db2 f).1 (by rw [hd1, hd2, hd])
        (by rw [hj1, hj2, hj])
        (by rw [hs1, hs2, hpre, List.append_assoc])
        (fun f' hf' => hF f' (List.mem_cons_of_mem _ hf'))
      rw [List.foldl_cons, List.foldl_cons]
      refine ⟨Δ0 ++ Δ', ?_, ?_⟩
      · rw [hh1, hs1]
        simp [List.append_assoc]
      · rw [hh2, hs2]
        simp [List.append_assoc]

theorem restoreEmpGo_shift (chunk : Nat) (pre : List EmpRow) :
    ∀ (parts : List PartFetch) (db1 db2 : DBState),
      db1.depts = db2.depts → db1.jobs = db2.jobs →
      db1.emps = pre ++ db2.emps →
      (∀ rows, PartFetch.okPart rows ∈ parts → ∀ r ∈ rows, ∀ n,
        r.idOpt = some n → n ∉ rowIds pre) →
      (restoreEmpGo chunk db1 parts).1 = (restoreEmpGo chunk db2 parts).1
      ∧ ∃ Δ, (restoreEmpGo chunk db1 parts).2.emps = db1.emps ++ Δ
          ∧ (restoreEmpGo chunk db2 parts).2.emps = db2.emps ++ Δ := by
  intro parts
  induction parts with
  | nil =>
      intro db1 db2 hd hj hpre hP
      exact ⟨rfl, ⟨[], by simp [restoreEmpGo], by simp [restoreEmpGo]⟩⟩
  | cons part rest ih =>
      intro db1 db2 hd hj hpre hP
      cases part with
      | failPart =>
          exact ⟨rfl, ⟨[], by simp [restoreEmpGo], by simp [restoreEmpGo]⟩⟩
      | okPart rows =>
          rw [restoreEmpGo, restoreEmpGo]
          by_cases hrows : rows = []
          · rw [if_pos hrows, if_pos hrows]
            exact ih db1 db2 hd hj hpre
              (fun rows' hm => hP rows' (List.mem_cons_of_mem _ hm))
          · rw [if_neg hrows, if_neg hrows]
            rcases restoreEmpDf_uniform chunk pre db1 db2 rows hd hj hpre
                (hP rows (List.mem_cons_self _ _)) with ⟨h1, h2⟩ | ⟨h1, h2⟩
            · rw [h1, h2]
              exact ⟨rfl, ⟨[], by simp, by simp⟩⟩
            · rw [h1, h2]
              obtain ⟨he, Δ', hh1, hh2⟩ := ih
                { db1 with emps := db1.emps ++ rows }
                { db2 with emps := db2.emps ++ rows }
                (by simpa using hd) (by simpa using hj)
                (by simp [hpre, List.append_assoc])
                (fun rows' hm r hr n hn =>
                  hP rows' (List.mem_cons_of_mem _ hm) r hr n hn)
              refine ⟨he, ⟨rows ++ Δ', ?_, ?_⟩⟩
              · rw [hh1]
                simp [List.append_assoc]
              · rw [hh2]
                simp [List.append_assoc]

/-- C8: a failure of the TRUNCATE preceding a truncate-load or a restore
is caught and logged and the subsequent bulk load proceeds anyway; and,
as long as the loaded data's explicit ids do not collide with the rows a
failed truncation left behind, the operation reports the same outcome and
commits the same new rows as after a successful truncation — a
truncation failure alone never causes a raise or a failure result (an id
collision with leftover rows would be a duplicate-key load failure, not a
truncation failure). -/
theorem truncation_nonfatal (pdDt : String → Option Ts)
    (files : List (List CsvEmp)) (parts : List PartFetch) (chunk : Nat)
    (db : DBState)
    (hcsv : ∀ f ∈ files, ∀ r ∈ cleanEmpRows pdDt f, ∀ n,
      pyIntOfString r.idS = some n → n ∉ empIds db)
    (hres : ∀ rows, PartFetch.okPart rows ∈ parts → ∀ r ∈ rows, ∀ n,
      r.idOpt = some n → n ∉ empIds db) :
    (loadEmpFromStorage false pdDt files db).1
      = (loadEmpFromStorage true pdDt files db).1
    ∧ (loadEmpFromStorage false pdDt files db).2.emps
      = db.emps ++ (loadEmpFromStorage true pdDt files db).2.emps
    ∧ (restoreEmpTable false chunk parts db).1
      = (restoreEmpTable true chunk parts db).1
    ∧ (restoreEmpTable false chunk parts db).2.emps
      = db.emps ++ (restoreEmpTable true chunk parts db).2.emps := by
  have htrueF : truncateTableBeforeLoad false "hired_employees" db = db :=
    rfl
  have htrueT : truncateTableBeforeLoad true "hired_employees" db
      = { db with emps := [] } := by
    unfold truncateTableBeforeLoad
    rw [if_pos rfl]
    rfl
  refine ⟨rfl, ?_, ?_, ?_⟩
  · unfold loadEmpFromStorage
    rw [htrueF, htrueT]
    obtain ⟨Δ, h1, h2⟩ := filesFold_shift pdDt db.emps files db
      { db with emps := [] } rfl rfl (by simp) hcsv
    dsimp only
    rw [h1, h2]
    simp
  · unfold restoreEmpTable
    rw [htrueF, htrueT]
    by_cases hp : parts.isEmpty
    · rw [if_pos hp, if_pos hp]
    · rw [if_neg hp, if_neg hp]
      exact (restoreEmpGo_shift chunk db.emps parts db
        { db with emps := [] } rfl rfl (by simp) hres).1
  · unfold restoreEmpTable
    rw [htrueF, htrueT]
    by_cases hp : parts.isEmpty
    · rw [if_pos hp, if_pos hp]
      simp
    · rw [if_neg hp, if_neg hp]
      obtain ⟨_, Δ, h1, h2⟩ := restoreEmpGo_shift chunk db.emps parts db
        { db with emps := [] } rfl rfl (by simp) hres
      rw [h1, h2]
      simp

/-- Witness for C8: a store holding a leftover employee with id 99, a
CSV file cleaning to a row with id 7, and a one-partition snapshot with
id 5 — no collisions, and a failed TRUNCATE yields the same outcome and
the same newly committed rows as a successful one. -/
theorem truncation_nonfatal_witness :
    (∀ f ∈ [[CsvEmp.mk (some "7") (some "Ana Ruiz")
        (some "2023-01-05T10:00:00") (some "1") (some "2")]],
      ∀ r ∈ cleanEmpRows strptimeAny f, ∀ n,
        pyIntOfString r.idS = some n →
          n ∉ empIds ⟨[1], [2], [⟨some 99, "Old", sampleDt, 1, 2⟩]⟩)
    ∧ (∀ rows, PartFetch.okPart rows ∈
        [PartFetch.okPart [⟨some 5, "Eva", sampleDt, 1, 2⟩]] →
        ∀ r ∈ rows, ∀ n, r.idOpt = some n →
          n ∉ empIds ⟨[1], [2], [⟨some 99, "Old", sampleDt, 1, 2⟩]⟩)
    ∧ ((loadEmpFromStorage false strptimeAny
          [[CsvEmp.mk (some "7") (some "Ana Ruiz")
            (some "2023-01-05T10:00:00") (some "1") (some "2")]]
          ⟨[1], [2], [⟨some 99, "Old", sampleDt, 1, 2⟩]⟩).1
        = (loadEmpFromStorage true strptimeAny
          [[CsvEmp.mk (some "7") (some "Ana Ruiz")
            (some "2023-01-05T10:00:00") (some "1") (some "2")]]
          ⟨[1], [2], [⟨some 99, "Old", sampleDt, 1, 2⟩]⟩).1
      ∧ (loadEmpFromStorage false strptimeAny
          [[CsvEmp.mk (some "7") (some "Ana Ruiz")
            (some "2023-01-05T10:00:00") (some "1") (some "2")]]
          ⟨[1], [2], [⟨some 99, "Old", sampleDt, 1, 2⟩]⟩).2.emps
        = (DBState.mk [1] [2] [⟨some 99, "Old", sampleDt, 1, 2⟩]).emps
          ++ (loadEmpFromStorage true strptimeAny
            [[CsvEmp.mk (some "7") (some "Ana Ruiz")
              (some "2023-01-05T10:00:00") (some "1") (some "2")]]
            ⟨[1], [2], [⟨some 99, "Old", sampleDt, 1, 2⟩]⟩).2.emps
      ∧ (restoreEmpTable false 1000
          [PartFetch.okPart [⟨some 5, "Eva", sampleDt, 1, 2⟩]]
          ⟨[1], [2], [⟨some 99, "Old", sampleDt, 1, 2⟩]⟩).1
        = (restoreEmpTable true 1000
          [PartFetch.okPart [⟨some 5, "Eva", sampleDt, 1, 2⟩]]
          ⟨[1], [2], [⟨some 99, "Old", sampleDt, 1, 2⟩]⟩).1
      ∧ (restoreEmpTable false 1000
          [PartFetch.okPart [⟨some 5, "Eva", sampleDt, 1, 2⟩]]
          ⟨[1], [2], [⟨some 99, "Old", sampleDt, 1, 2⟩]⟩).2.emps
        = (DBState.mk [1] [2] [⟨some 99, "Old", sampleDt, 1, 2⟩]).emps
          ++ (restoreEmpTable true 1000
            [PartFetch.okPart [⟨some 5, "Eva", sampleDt, 1, 2⟩]]
            ⟨[1], [2], [⟨some 99, "Old", sampleDt, 1, 2⟩]⟩).2.emps) := by
  have h1 : ∀ f ∈ [[CsvEmp.mk (some "7") (some "Ana Ruiz")
        (some "2023-01-05T10:00:00") (some "1") (some "2")]],
      ∀ r ∈ cleanEmpRows strptimeAny f, ∀ n,
        pyIntOfString r.idS = some n →
          n ∉ empIds ⟨[1], [2], [⟨some 99, "Old", sampleDt, 1, 2⟩]⟩ := by
    intro f hf r hr n hp
    rw [List.mem_singleton] at hf
    subst hf
    have he : cleanEmpRows strptimeAny
        [CsvEmp.mk (some "7") (some "Ana Ruiz")
          (some "2023-01-05T10:00:00") (some "1") (some "2")]
        = [EmpClean.mk "7" "Ana Ruiz" sampleDt 1 2] := rfl
    rw [he, List.mem_singleton] at hr
    subst hr
    have h7 : pyIntOfString (EmpClean.mk "7" "Ana Ruiz" sampleDt 1 2).idS
        = some 7 := rfl
    rw [h7] at hp
    injection hp with hp
    subst hp
    decide
  have h2 : ∀ rows, PartFetch.okPart rows ∈
      [PartFetch.okPart [⟨some 5, "Eva", sampleDt, 1, 2⟩]] →
      ∀ r ∈ rows, ∀ n, r.idOpt = some n →
        n ∉ empIds ⟨[1], [2], [⟨some 99, "Old", sampleDt, 1, 2⟩]⟩ := by
    intro rows hm r hr n hp
    rw [List.mem_singleton] at hm
    injection hm with hm
    subst hm
    rw [List.mem_singleton] at hr
    subst hr
    injection hp with hp
    subst hp
    decide
  exact ⟨h1, h2, truncation_nonfatal strptimeAny
    [[CsvEmp.mk (some "7") (some "Ana Ruiz")
      (some "2023-01-05T10:00:00") (some "1") (some "2")]]
    [PartFetch.okPart [⟨some 5, "Eva", sampleDt, 1, 2⟩]] 1000
    ⟨[1], [2], [⟨some 99, "Old", sampleDt, 1, 2⟩]⟩ h1 h2⟩

theorem restoreEmpDf_ok (chunk : Nat) (hch : chunk ≠ 0) (db : DBState)
    (rows : List EmpRow)
    (hfk : ∀ r ∈ rows, r.idOpt.isSome = true ∧ fkOk db r = true)
    (hpk : pkOk db rows = true) :
    restoreEmpDf chunk db rows = .ok { db with emps := db.emps ++ rows } := by
  unfold restoreEmpDf
  rw [if_neg hch]
  dsimp only
  have hA : (chunksOf chunk rows).all (fun c =>
      if c.any (fun r => r.idOpt.isSome) then
        c.all (fun r => r.idOpt.isSome && fkOk db r)
      else c.all (fkOk db)) = true := by
    apply List.all_eq_true.mpr
    intro c hc
    by_cases hany : c.any (fun r => r.idOpt.isSome) = true
    · rw [if_pos hany]
      apply List.all_eq_true.mpr
      intro r hr
      obtain ⟨h1, h2⟩ := hfk r (chunksOf_sublists_mem chunk rows c hc r hr)
      simp [h1, h2]
    · rw [if_neg hany]
      apply List.all_eq_true.mpr
      intro r hr
      exact (hfk r (chunksOf_sublists_mem chunk rows c hc r hr)).2
  rw [if_pos (by rw [hA, hpk]; decide)]

theorem restoreEmpGo_all_ok (chunk : Nat) (hch : chunk ≠ 0) :
    ∀ (pre : List (List EmpRow)) (db : DBState),
      (∀ c ∈ pre, ∀ r ∈ c, r.idOpt.isSome = true ∧ fkOk db r = true) →
      (rowIds pre.flatten).Nodup →
      (∀ n ∈ rowIds pre.flatten, n ∉ empIds db) →
      restoreEmpGo chunk db (pre.map .okPart)
        = (true, { db with emps := db.emps ++ pre.flatten })
      ∧ ∀ rest, restoreEmpGo chunk db (pre.map .okPart ++ .failPart :: rest)
          = (false, { db with emps := db.emps ++ pre.flatten }) := by
  intro pre
  induction pre with
  | nil =>
      intro db _ _ _
      constructor
      · show restoreEmpGo chunk db [] = _
        simp [restoreEmpGo]
      · intro rest
        show restoreEmpGo chunk db (.failPart :: rest) = _
        simp [restoreEmpGo]
  | cons c pre ih =>
      intro db h hnd hdz
      have hflat : rowIds ((c :: pre).flatten)
          = rowIds c ++ rowIds pre.flatten := by
        rw [List.flatten_cons, rowIds_append]
      rw [hflat] at hnd
      obtain ⟨hndc, hndp, hdisjcp⟩ := List.nodup_append.mp hnd
      have hdzc : ∀ n ∈ rowIds c, n ∉ empIds db := by
        intro n hn
        apply hdz
        rw [hflat]
        exact List.mem_append.mpr (.inl hn)
      have hdzp : ∀ n ∈ rowIds pre.flatten, n ∉ empIds db := by
        intro n hn
        apply hdz
        rw [hflat]
        exact List.mem_append.mpr (.inr hn)
      have hc : ∀ r ∈ c, r.idOpt.isSome = true ∧ fkOk db r = true :=
        h c (List.mem_cons_self _ _)
      have hpkc : pkOk db c = true := (pkOk_iff db c).mpr ⟨hndc, hdzc⟩
      have hdb' : ∀ c' ∈ pre, ∀ r ∈ c',
          r.idOpt.isSome = true
          ∧ fkOk { db with emps := db.emps ++ c } r = true := by
        intro c' hc' r hr
        obtain ⟨h1, h2⟩ := h c' (List.mem_cons_of_mem _ hc') r hr
        refine ⟨h1, ?_⟩
        rw [fkOk_congr { db with emps := db.emps ++ c } db rfl rfl r]
        exact h2
      have hempIds2 : empIds { db with emps := db.emps ++ c }
          = empIds db ++ rowIds c := by
        unfold empIds
        exact rowIds_append db.emps c
      have hdz2 : ∀ n ∈ rowIds pre.flatten,
          n ∉ empIds { db with emps := db.emps ++ c } := by
        intro n hn
        rw [hempIds2]
        intro hmem
        rcases List.mem_append.mp hmem with hm | hm
        · exact hdzp n hn hm
        · exact hdisjcp hm hn
      by_cases hce : c = []
      · subst hce
        obtain ⟨ihok, ihfail⟩ := ih db
          (fun c' hc' r hr => h c' (List.mem_cons_of_mem _ hc') r hr)
          hndp hdzp
        constructor
        · show restoreEmpGo chunk db (.okPart [] :: pre.map .okPart) = _
          rw [restoreEmpGo, if_pos rfl, ihok]
          simp
        · intro rest
          show restoreEmpGo chunk db
            (.okPart [] :: (pre.map .okPart ++ .failPart :: rest)) = _
          rw [restoreEmpGo, if_pos rfl, ihfail rest]
          simp
      · obtain ⟨ihok, ihfail⟩ := ih { db with emps := db.emps ++ c } hdb'
          hndp hdz2
        constructor
        · show restoreEmpGo chunk db (.okPart c :: pre.map .okPart) = _
          rw [restoreEmpGo, if_neg hce,
            restoreEmpDf_ok chunk hch db c hc hpkc]
          dsimp only
          rw [ihok]
          simp [List.append_assoc]
        · intro rest
          show restoreEmpGo chunk db
            (.okPart c :: (pre.map .okPart ++ .failPart :: rest)) = _
          rw [restoreEmpGo, if_neg hce,
            restoreEmpDf_ok chunk hch db c hc hpkc]
          dsimp only
          rw [ihfail rest]
          simp [List.append_assoc]

/-- C9 (counterexample): two successful restores of snapshots with
different row totals both return the same value `true` — the operation
returns a success boolean, not the aggregated number of rows restored
(the total is only logged). -/
theorem restore_return_counterexample :
    (restoreEmpTable true 1000
        [.okPart [⟨some 1, "Ana", sampleDt, 1, 2⟩,
          ⟨some 2, "Bo", sampleDt, 1, 2⟩]] ⟨[1], [2], []⟩).1 = true
    ∧ (restoreEmpTable true 1000
        [.okPart [⟨some 1, "Ana", sampleDt, 1, 2⟩,
          ⟨some 2, "Bo", sampleDt, 1, 2⟩,
          ⟨some 3, "Cy", sampleDt, 1, 2⟩]] ⟨[1], [2], []⟩).1 = true
    ∧ (restoreEmpTable true 1000
        [.okPart [⟨some 1, "Ana", sampleDt, 1, 2⟩,
          ⟨some 2, "Bo", sampleDt, 1, 2⟩]] ⟨[1], [2], []⟩).2.emps.length
        = 2
    ∧ (restoreEmpTable true 1000
        [.okPart [⟨some 1, "Ana", sampleDt, 1, 2⟩,
          ⟨some 2, "Bo", sampleDt, 1, 2⟩,
          ⟨some 3, "Cy", sampleDt, 1, 2⟩]] ⟨[1], [2], []⟩).2.emps.length
        = 3 := by
  refine ⟨?_, ?_, ?_, ?_⟩ <;> rfl

/-- C9 (amended): a successful restore processes every partition of the
snapshot, commits their rows, and returns `True` (the aggregated total is
only logged, not returned); any partition-level failure aborts the whole
restore — later partitions are not processed — and the operation reports
failure by returning `False`, keeping the rows of the partitions already
committed. The partitions succeed when their rows carry explicit ids
satisfying the foreign keys, pairwise distinct and disjoint from the ids
left in the table after the truncation step (the primary key on `id`
would otherwise make the COPY fail). -/
theorem restore_semantics (truncOk : Bool) (chunk : Nat)
    (pre : List (List EmpRow)) (rest : List PartFetch) (db : DBState)
    (hch : chunk ≠ 0) (hpre : pre ≠ [])
    (hfk : ∀ c ∈ pre, ∀ r ∈ c, r.idOpt.isSome = true ∧ fkOk db r = true)
    (hnd : (rowIds pre.flatten).Nodup)
    (hdz : ∀ n ∈ rowIds pre.flatten,
      n ∉ empIds (truncateTableBeforeLoad truncOk "hired_employees" db)) :
    restoreEmpTable truncOk chunk (pre.map .okPart) db
      = (true, { truncateTableBeforeLoad truncOk "hired_employees" db with
          emps := (truncateTableBeforeLoad truncOk "hired_employees"
            db).emps ++ pre.flatten })
    ∧ restoreEmpTable truncOk chunk (pre.map .okPart ++ .failPart :: rest)
        db
      = (false, { truncateTableBeforeLoad truncOk "hired_employees" db with
          emps := (truncateTableBeforeLoad truncOk "hired_employees"
            db).emps ++ pre.flatten }) := by
  have hfk0 : ∀ c ∈ pre, ∀ r ∈ c, r.idOpt.isSome = true
      ∧ fkOk (truncateTableBeforeLoad truncOk "hired_employees" db) r
        = true := by
    intro c hc r hr
    obtain ⟨h1, h2⟩ := hfk c hc r hr
    obtain ⟨hd, hj, _⟩ := truncEmp_state truncOk db
    refine ⟨h1, ?_⟩
    rw [fkOk_congr (truncateTableBeforeLoad truncOk "hired_employees" db)
      db hd hj r]
    exact h2
  obtain ⟨hok, hfail⟩ := restoreEmpGo_all_ok chunk hch pre
    (truncateTableBeforeLoad truncOk "hired_employees" db) hfk0 hnd hdz
  constructor
  · unfold restoreEmpTable
    rw [if_neg (by simpa using hpre)]
    exact hok
  · unfold restoreEmpTable
    rw [if_neg (by simp)]
    exact hfail rest

/-- Witness for C9 (amended): a two-partition snapshot with distinct
fresh ids restores with result `True` and both partitions' rows
committed; with a failing third partition the restore returns `False`
keeping the first two. -/
theorem restore_semantics_witness :
    (1000 : Nat) ≠ 0
    ∧ ([[⟨some 1, "Ana", sampleDt, 1, 2⟩], [⟨some 2, "Bo", sampleDt, 1, 2⟩]]
        : List (List EmpRow)) ≠ []
    ∧ (∀ c ∈ ([[⟨some 1, "Ana", sampleDt, 1, 2⟩],
          [⟨some 2, "Bo", sampleDt, 1, 2⟩]] : List (List EmpRow)),
        ∀ r ∈ c, r.idOpt.isSome = true
          ∧ fkOk ⟨[1], [2], []⟩ r = true)
    ∧ (rowIds ([[⟨some 1, "Ana", sampleDt, 1, 2⟩],
          [⟨some 2, "Bo", sampleDt, 1, 2⟩]] :
          List (List EmpRow)).flatten).Nodup
    ∧ (∀ n ∈ rowIds ([[⟨some 1, "Ana", sampleDt, 1, 2⟩],
          [⟨some 2, "Bo", sampleDt, 1, 2⟩]] :
          List (List EmpRow)).flatten,
        n ∉ empIds (truncateTableBeforeLoad true "hired_employees"
          ⟨[1], [2], []⟩))
    ∧ restoreEmpTable true 1000
        (([[⟨some 1, "Ana", sampleDt, 1, 2⟩],
           [⟨some 2, "Bo", sampleDt, 1, 2⟩]] :
          List (List EmpRow)).map .okPart ++ .failPart :: []) ⟨[1], [2], []⟩
      = (false, { truncateTableBeforeLoad true "hired_employees"
            ⟨[1], [2], []⟩ with
          emps := (truncateTableBeforeLoad true "hired_employees"
            ⟨[1], [2], []⟩).emps
            ++ ([[⟨some 1, "Ana", sampleDt, 1, 2⟩],
                [⟨some 2, "Bo", sampleDt, 1, 2⟩]] :
              List (List EmpRow)).flatten }) :=
  ⟨by decide, by decide, by decide, by decide, by decide,
    (restore_semantics true 1000
      [[⟨some 1, "Ana", sampleDt, 1, 2⟩], [⟨some 2, "Bo", sampleDt, 1, 2⟩]]
      [] ⟨[1], [2], []⟩ (by decide) (by decide) (by decide) (by decide)
      (by decide)).2⟩

end Migration
